import Mathlib

/-!
Shallow embedding of skaffold's experimental lint/inspect recommendation
pipeline (packages `inspect` and `lint` of the repository slice), together
with proofs about the embedded definitions.

Conventions used throughout:
* Go byte strings holding artifact text are embedded as `List Char`
  (the texts involved are ASCII, where Go byte indices and char indices
  coincide); `strings.ToUpper` is embedded as per-char `Char.toUpper`.
* File paths are embedded as `String`; `filepath.Join` is embedded as
  concatenation with a `/` separator (claims only compare joined paths
  for equality).
* Fallible Go functions returning `(T, error)` are embedded as
  `Except String T` (or `Option` where only success matters).
* External collaborators (the YAML linters, the dependency extractor,
  the diff backend, the config-set loader, file reads) are taken as
  function parameters of the embedded operations.
-/

namespace Skaffold

/-- Go `filepath.Join` on two components, modelled as concatenation with a
separator. -/
def pathJoin (a b : String) : String := a ++ "/" ++ b

/-- Go `strings.ToUpper`, modelled per character. -/
def toUpperL (s : List Char) : List Char := s.map Char.toUpper

/-- Go `strings.Index t s`-style search: the first index of `s` at which the
needle `t` starts, `none` when the needle does not occur (Go returns `-1`).
The needle is the first argument. -/
def strIndex (t : List Char) : List Char → Option Nat
  | [] => if t.isPrefixOf ([] : List Char) then some 0 else none
  | c :: s => if t.isPrefixOf (c :: s) then some 0 else (strIndex t s).map (· + 1)

/-- The `Action` enum of the `inspect` package: `Replace`, `Add`, `Delete`,
`Noop` (Go iota values 0..3). -/
inductive Action where
  | replace
  | add
  | delete
  | noop
deriving DecidableEq

/-- Go integer value of each `Action` constant (iota order). -/
def Action.toInt : Action → Int
  | .replace => 0
  | .add => 1
  | .delete => 2
  | .noop => 3

/-- Total embedding of Go's `Action.String`, which indexes the literal array
`[...]string{"Replace", "Add", "Delete", "Noop"}` with the action's integer
value: an out-of-range index is a Go runtime panic, embedded as `none`. -/
def ActionString (a : Int) : Option String :=
  if a < 0 then none else ["Replace", "Add", "Delete", "Noop"].get? a.toNat

/-- The `ConfigOpt` struct of the `inspect` package.  Field defaults are the
Go zero values. -/
structure ConfigOpt where
  action : Action := .replace
  path : String := ""
  configTemplate : List Char := []
  textStartIndex : Nat := 0
  textEndIndex : Nat := 0
  explanation : String := ""
deriving DecidableEq

/-- The `Recommendation` struct of the `inspect` package: a flagged
configuration span paired with a recommended one. -/
structure Recommendation where
  flaggedConfig : ConfigOpt := {}
  recommendedConfig : ConfigOpt := {}
deriving DecidableEq

/-- The `Dockerfile` struct of the `inspect` package. -/
structure Dockerfile where
  absPath : String
  relPath : String
  text : List Char
deriving DecidableEq

/-- Body of the loop of `(rc *RecommendedConfig).SuggestRecsViaStringEquals`
for a single catalog entry `rec` against Dockerfile `d`: search the
uppercased text for the uppercased flagged template; on a hit at `idx`, set
`TextStartIndex`, `FlaggedConfig.Path`, `TextEndIndex = idx + len(template)`
and `RecommendedConfig.Path`, and emit the updated entry. -/
def suggestOne (d : Dockerfile) (rec : Recommendation) : Option Recommendation :=
  match strIndex (toUpperL rec.flaggedConfig.configTemplate) (toUpperL d.text) with
  | some idx => some
      { rec with
        flaggedConfig :=
          { rec.flaggedConfig with
            textStartIndex := idx
            path := d.absPath
            textEndIndex := idx + rec.flaggedConfig.configTemplate.length }
        recommendedConfig := { rec.recommendedConfig with path := d.absPath } }
  | none => none

/-- The list built by the loop of `SuggestRecsViaStringEquals`: entries that
match, in catalog order. -/
def suggestList (rc : List Recommendation) (d : Dockerfile) : List Recommendation :=
  rc.filterMap (suggestOne d)

/-- Embedding of `(rc *RecommendedConfig).SuggestRecsViaStringEquals(d)`: returns the
matching entries and a `nil` error (the Go function never fails). -/
def SuggestRecsViaStringEquals (rc : List Recommendation) (d : Dockerfile) :
    Except String (List Recommendation) :=
  .ok (suggestList rc d)

/-- The `StringEqualsRecs` catalog of the `inspect` package (two entries:
the `Copy . .` anti-pattern rule and a test-only flag-without-recommendation
entry whose recommended action is `Noop`). -/
def StringEqualsRecs : List Recommendation :=
  [ { flaggedConfig := { configTemplate := "Copy . .".toList, action := .replace }
      recommendedConfig :=
        { configTemplate := "Copy $MIN_SET_OF_NECESSARY_SOURCE_FILES_FOR_IMAGE .".toList
          explanation := "Found \x27COPY . .\x27, this is possibly a docker anti-pattern and has the potential to dramatically slow \x27skaffold dev\x27 down by having skaffold watch all files in a directory for changes. If you notice skaffold rebuilding images unnecessarily when non-image-critical files are modified, consider changing this to `COPY $MIN_SET_OF_NECESSARY_SOURCE_FILES_FOR_IMAGE .` for each required source file instead of using \x27COPY . .\x27. See TODO:ADD_A_LINK_HERE" } }
  , { flaggedConfig :=
        { configTemplate := "Testing what only flagged recommendation w/ no rec looks like".toList
          action := .replace }
      recommendedConfig := { action := .noop } } ]

/-- Stub strategy `regexpRecommendations`: always the empty list with a nil
error. -/
def regexpRecommendations : Except String (List Recommendation) := .ok []

/-- Stub strategy `graphRecommendations`: always the empty list with a nil
error. -/
def graphRecommendations : Except String (List Recommendation) := .ok []

/-- Embedding of `getDockerfileRecommendations(d)`: append the results of the
string-equals, regexp and graph strategies, propagating any error. -/
def getDockerfileRecommendations (d : Dockerfile) : Except String (List Recommendation) := do
  let recs : List Recommendation := []
  let stringEqualsRecs ← SuggestRecsViaStringEquals StringEqualsRecs d
  let recs := recs ++ stringEqualsRecs
  let regexpRecs ← regexpRecommendations
  let recs := recs ++ regexpRecs
  let graphRecs ← graphRecommendations
  let recs := recs ++ graphRecs
  pure recs

/-- Case-insensitive occurrence of template `t` at position `i` of `text`:
the uppercased template is a prefix of the uppercased text from `i` on.
Used to state properties of the string-equals matcher. -/
def occursCIAt (t text : List Char) (i : Nat) : Prop :=
  (toUpperL t).isPrefixOf ((toUpperL text).drop i) = true

instance (t text : List Char) (i : Nat) : Decidable (occursCIAt t text i) := by
  unfold occursCIAt; infer_instance

instance {ε α : Type} [DecidableEq ε] [DecidableEq α] : DecidableEq (Except ε α)
  | .ok a, .ok b =>
    if h : a = b then .isTrue (by rw [h])
    else .isFalse (by intro he; injection he; contradiction)
  | .ok _, .error _ => .isFalse (by intro h; exact Except.noConfusion h)
  | .error _, .ok _ => .isFalse (by intro h; exact Except.noConfusion h)
  | .error e, .error f =>
    if h : e = f then .isTrue (by rw [h])
    else .isFalse (by intro he; injection he; contradiction)

/-- A hit of `strIndex` is a real occurrence and the earliest one. -/
theorem strIndex_some (t : List Char) :
    ∀ s i, strIndex t s = some i →
      t.isPrefixOf (s.drop i) = true ∧ ∀ j < i, t.isPrefixOf (s.drop j) = false := by
  intro s
  induction s with
  | nil =>
    intro i h
    unfold strIndex at h
    by_cases hp : t.isPrefixOf ([] : List Char) = true
    · simp [hp] at h
      subst h
      exact ⟨hp, by omega⟩
    · simp [hp] at h
  | cons c s ih =>
    intro i h
    unfold strIndex at h
    by_cases hp : t.isPrefixOf (c :: s) = true
    · simp [hp] at h
      subst h
      exact ⟨hp, by omega⟩
    · have hpf : t.isPrefixOf (c :: s) = false := Bool.eq_false_iff.mpr hp
      simp [hp] at h
      obtain ⟨i', hi', rfl⟩ := h
      obtain ⟨h1, h2⟩ := ih i' hi'
      refine ⟨h1, ?_⟩
      intro j hj
      cases j with
      | zero => simpa using hpf
      | succ j' => exact h2 j' (by omega)

/-- A miss of `strIndex` means the needle occurs nowhere. -/
theorem strIndex_none (t : List Char) :
    ∀ s, strIndex t s = none → ∀ j, t.isPrefixOf (s.drop j) = false := by
  intro s
  induction s with
  | nil =>
    intro h j
    unfold strIndex at h
    by_cases hp : t.isPrefixOf ([] : List Char) = true
    · simp [hp] at h
    · have hpf : t.isPrefixOf ([] : List Char) = false := Bool.eq_false_iff.mpr hp
      simpa using hpf
  | cons c s ih =>
    intro h j
    unfold strIndex at h
    by_cases hp : t.isPrefixOf (c :: s) = true
    · simp [hp] at h
    · have hpf : t.isPrefixOf (c :: s) = false := Bool.eq_false_iff.mpr hp
      simp [hp] at h
      cases j with
      | zero => simpa using hpf
      | succ j' => exact ih h j'

/-- Claim C1: for every catalog entry and every Dockerfile,
`SuggestRecsViaStringEquals` emits a recommendation for the entry iff the
entry's flagged template occurs case-insensitively in the Dockerfile text;
when it does, `TextStartIndex` is the first case-insensitive occurrence,
`TextEndIndex - TextStartIndex` equals the template length, and both
`FlaggedConfig.Path` and `RecommendedConfig.Path` are the Dockerfile's
absolute path. -/
theorem C1_string_equals_matcher (rc : List Recommendation) (d : Dockerfile)
    (rec : Recommendation) :
    SuggestRecsViaStringEquals rc d = Except.ok (rc.filterMap (suggestOne d)) ∧
    ((suggestOne d rec).isSome = true ↔
      ∃ i, occursCIAt rec.flaggedConfig.configTemplate d.text i) ∧
    (∀ r', suggestOne d rec = some r' →
      occursCIAt rec.flaggedConfig.configTemplate d.text r'.flaggedConfig.textStartIndex ∧
      (∀ j < r'.flaggedConfig.textStartIndex,
        ¬ occursCIAt rec.flaggedConfig.configTemplate d.text j) ∧
      r'.flaggedConfig.textEndIndex - r'.flaggedConfig.textStartIndex
          = rec.flaggedConfig.configTemplate.length ∧
      r'.flaggedConfig.path = d.absPath ∧
      r'.recommendedConfig.path = d.absPath) := by
  refine ⟨rfl, ?_, ?_⟩
  · unfold suggestOne occursCIAt
    cases h : strIndex (toUpperL rec.flaggedConfig.configTemplate) (toUpperL d.text) with
    | some idx =>
      simp only [Option.isSome_some, true_iff]
      exact ⟨idx, (strIndex_some _ _ _ h).1⟩
    | none =>
      simp only [Option.isSome_none, Bool.false_eq_true, false_iff, not_exists]
      intro i hi
      have := strIndex_none _ _ h i
      rw [this] at hi
      exact Bool.false_ne_true hi
  · intro r' h
    unfold suggestOne at h
    cases hidx : strIndex (toUpperL rec.flaggedConfig.configTemplate) (toUpperL d.text) with
    | none => rw [hidx] at h; exact Option.noConfusion h
    | some idx =>
      rw [hidx] at h
      injection h with h
      subst h
      obtain ⟨h1, h2⟩ := strIndex_some _ _ _ hidx
      refine ⟨h1, ?_, by simp, rfl, rfl⟩
      intro j hj hocc
      unfold occursCIAt at hocc
      rw [h2 j hj] at hocc
      exact Bool.false_ne_true hocc

/-- Concrete Dockerfile used to witness claim C1. -/
def c1Dockerfile : Dockerfile :=
  ⟨"/abs/app/Dockerfile", "app/Dockerfile", "FROM x\nCOPY . .\n".toList⟩

/-- Concrete catalog entry used to witness claim C1. -/
def c1Rec : Recommendation :=
  { flaggedConfig := { configTemplate := "Copy . .".toList, action := .replace }
    recommendedConfig := { configTemplate := "Copy $SRC .".toList } }

/-- Concrete output entry of the string-equals matcher for `c1Rec` against
`c1Dockerfile`. -/
def c1Out : Recommendation :=
  { flaggedConfig :=
      { configTemplate := "Copy . .".toList
        action := .replace
        textStartIndex := 7
        textEndIndex := 15
        path := "/abs/app/Dockerfile" }
    recommendedConfig :=
      { configTemplate := "Copy $SRC .".toList, path := "/abs/app/Dockerfile" } }

/-- Witness for claim C1 at a concrete catalog entry and Dockerfile. -/
theorem C1_string_equals_matcher_witness :
    suggestOne c1Dockerfile c1Rec = some c1Out ∧
    occursCIAt c1Rec.flaggedConfig.configTemplate c1Dockerfile.text
      c1Out.flaggedConfig.textStartIndex ∧
    (∀ j < c1Out.flaggedConfig.textStartIndex,
      ¬ occursCIAt c1Rec.flaggedConfig.configTemplate c1Dockerfile.text j) ∧
    c1Out.flaggedConfig.textEndIndex - c1Out.flaggedConfig.textStartIndex
        = c1Rec.flaggedConfig.configTemplate.length ∧
    c1Out.flaggedConfig.path = c1Dockerfile.absPath ∧
    c1Out.recommendedConfig.path = c1Dockerfile.absPath := by
  have heq : suggestOne c1Dockerfile c1Rec = some c1Out := by decide
  have h := (C1_string_equals_matcher [c1Rec] c1Dockerfile c1Rec).2.2 c1Out heq
  exact ⟨heq, h⟩

/-- Concrete single-rule catalog of the claim C3 scenario. -/
def c3Catalog : List Recommendation :=
  [ { flaggedConfig := { configTemplate := "Copy . .".toList, action := .replace }
      recommendedConfig := { configTemplate := "Copy $SRC .".toList } } ]

/-- Concrete Dockerfile of the claim C3 scenario. -/
def c3Dockerfile : Dockerfile :=
  ⟨"/abs/Dockerfile", "Dockerfile", "FROM x\nCOPY . .\n".toList⟩

/-- Claim C3 counterexample: on the scenario artifact text the single
emitted recommendation has `TextStartIndex = 7` and `TextEndIndex = 15`
(the flagged template `Copy . .` has length 8), not `TextEndIndex = 16`
as the claim states. -/
theorem C3_counterexample :
    (SuggestRecsViaStringEquals c3Catalog c3Dockerfile).map
        (List.map fun r => (r.flaggedConfig.textStartIndex, r.flaggedConfig.textEndIndex))
      = Except.ok [(7, 15)] ∧
    ¬ ((SuggestRecsViaStringEquals c3Catalog c3Dockerfile).map
        (List.map fun r => (r.flaggedConfig.textStartIndex, r.flaggedConfig.textEndIndex))
      = Except.ok [(7, 16)]) := by
  constructor
  · decide
  · decide

/-- Claim C3 (amended): on the artifact text `"FROM x\nCOPY . .\n"` the
string-equals rule flagging `"Copy . ."` yields exactly one recommendation,
with `FlaggedConfig.TextStartIndex = 7` and `TextEndIndex = 15`. -/
theorem C3_amended :
    (suggestList c3Catalog c3Dockerfile).length = 1 ∧
    (SuggestRecsViaStringEquals c3Catalog c3Dockerfile).map
        (List.map fun r => (r.flaggedConfig.textStartIndex, r.flaggedConfig.textEndIndex))
      = Except.ok [(7, 15)] := by
  constructor
  · decide
  · decide

/-- Claim C10: the total embedding of `Action.String` (array indexing by the
action's integer value) returns `some` of the name exactly for the four
declared values `0..3`, mapping `Replace, Add, Delete, Noop` to their names,
and `none` (a Go index-out-of-range panic) for every other integer. -/
theorem C10_action_string_total (a : Int) :
    ((ActionString a).isSome = true ↔ 0 ≤ a ∧ a ≤ 3) ∧
    ActionString Action.replace.toInt = some "Replace" ∧
    ActionString Action.add.toInt = some "Add" ∧
    ActionString Action.delete.toInt = some "Delete" ∧
    ActionString Action.noop.toInt = some "Noop" := by
  refine ⟨?_, rfl, rfl, rfl, rfl⟩
  unfold ActionString
  by_cases h : a < 0
  · simp [h]
  · rw [if_neg h]
    rw [List.get?_eq_getElem?, Option.isSome_iff_ne_none, ne_eq, List.getElem?_eq_none_iff]
    simp only [List.length_cons, List.length_nil]
    omega

/-- Claim C9: the stub strategies `regexpRecommendations` and
`graphRecommendations` always return the empty list with a nil error, so
`getDockerfileRecommendations` returns exactly the string-equals matcher's
output. -/
theorem C9_stub_strategies (d : Dockerfile) :
    regexpRecommendations = Except.ok [] ∧
    graphRecommendations = Except.ok [] ∧
    getDockerfileRecommendations d = SuggestRecsViaStringEquals StringEqualsRecs d := by
  refine ⟨rfl, rfl, ?_⟩
  unfold getDockerfileRecommendations SuggestRecsViaStringEquals regexpRecommendations
    graphRecommendations
  simp [Bind.bind, Except.bind, pure, Except.pure]

/-- Newline character class `[\r\n]` of the metadata-stripping regexp of
`generateRecommendationDiff`. -/
def isNL (c : Char) : Bool := c == '\n' || c == '\r'

/-- The literal `index` of the metadata-stripping regexp. -/
def idxTok : List Char := ['i', 'n', 'd', 'e', 'x']

/-- Fuel-indexed worker embedding the Go replacement
`regexp.MustCompile("(?m)[\r\n]+^index.*$").ReplaceAllString(out, "")`:
a maximal run of newline characters that ends with a line feed (RE2's
multiline `^` anchor only matches after `\n`) and is followed by a line
starting with `index` is removed together with that line's non-newline
characters (`.*$` does not consume the line's trailing newline).  The fuel
argument only provides structural termination; callers pass the list's
length, which every recursive call preserves as an upper bound. -/
def stripF : Nat → List Char → List Char
  | 0, s => s
  | _ + 1, [] => []
  | f + 1, c :: cs =>
    if isNL c then
      if idxTok.isPrefixOf ((c :: cs).dropWhile isNL)
          && ((c :: cs).takeWhile isNL).getLast? == some '\n' then
        stripF f (((c :: cs).dropWhile isNL).dropWhile (fun x => !isNL x))
      else (c :: cs).takeWhile isNL ++ stripF f ((c :: cs).dropWhile isNL)
    else c :: stripF f cs

/-- The `index`-metadata-stripping replacement applied to a whole buffer. -/
def stripIndexMeta (s : List Char) : List Char := stripF s.length s

/-- Embedding of `generateRecommendationDiff(d, r)`: splice the recommended template over
the flagged span of the Dockerfile text, hand original and modified buffers
to the external diff backend (`differ origLabel modLabel origText modText`,
with the original side labelled `RelPath + ".orig"` and the modified side
`RelPath`), then strip the backend's `index` metadata lines.  Go's slice
expressions `d.Text[:start]` and `d.Text[end:]` are embedded with the total
`List.take`/`List.drop` (Go panics on out-of-range offsets; offsets produced
by the matcher are always in range). -/
def generateRecommendationDiff
    (differ : String → String → List Char → List Char → List Char)
    (d : Dockerfile) (r : Recommendation) : List Char :=
  stripIndexMeta (differ (d.relPath ++ ".orig") d.relPath d.text
    (d.text.take r.flaggedConfig.textStartIndex ++ r.recommendedConfig.configTemplate
      ++ d.text.drop r.flaggedConfig.textEndIndex))

/-- Checks that no newline character is immediately followed by the token
`index`, i.e. no line after the first starts with `index`. -/
def noIdxAfterNL : List Char → Bool
  | [] => true
  | c :: cs => (!(isNL c) || !(idxTok.isPrefixOf cs)) && noIdxAfterNL cs

/-- Checks that the list is empty or starts with a newline character. -/
def headOkNL : List Char → Bool
  | [] => true
  | c :: _ => isNL c

theorem stripF_cons_not_nl (f : Nat) (c : Char) (cs : List Char) (h : isNL c = false) :
    stripF (f + 1) (c :: cs) = c :: stripF f cs := by
  simp [stripF, h]

theorem stripF_cons_nl_hit (f : Nat) (c : Char) (cs : List Char) (h : isNL c = true)
    (h2 : (idxTok.isPrefixOf ((c :: cs).dropWhile isNL)
        && ((c :: cs).takeWhile isNL).getLast? == some '\n') = true) :
    stripF (f + 1) (c :: cs)
      = stripF f (((c :: cs).dropWhile isNL).dropWhile (fun x => !isNL x)) := by
  simp only [stripF, h, if_true, h2]

theorem stripF_cons_nl_miss (f : Nat) (c : Char) (cs : List Char) (h : isNL c = true)
    (h2 : (idxTok.isPrefixOf ((c :: cs).dropWhile isNL)
        && ((c :: cs).takeWhile isNL).getLast? == some '\n') = false) :
    stripF (f + 1) (c :: cs)
      = (c :: cs).takeWhile isNL ++ stripF f ((c :: cs).dropWhile isNL) := by
  simp only [stripF, h, if_true, h2]
  simp

theorem mem_dropWhile_sub {α : Type} (p : α → Bool) :
    ∀ (l : List α) (x : α), x ∈ l.dropWhile p → x ∈ l := by
  intro l
  induction l with
  | nil => intro x h; simp at h
  | cons a l ih =>
    intro x h
    rw [List.dropWhile_cons] at h
    by_cases hp : p a = true
    · rw [if_pos hp] at h
      exact List.mem_cons_of_mem a (ih x h)
    · rw [if_neg hp] at h
      exact h

theorem dropWhile_len_le {α : Type} (p : α → Bool) :
    ∀ l : List α, (l.dropWhile p).length ≤ l.length := by
  intro l
  induction l with
  | nil => simp
  | cons a l ih =>
    rw [List.dropWhile_cons]
    by_cases hp : p a = true
    · rw [if_pos hp]
      exact Nat.le_succ_of_le ih
    · rw [if_neg hp]

theorem headOkNL_dropWhile_not_nl :
    ∀ l : List Char, headOkNL (l.dropWhile (fun x => !isNL x)) = true := by
  intro l
  induction l with
  | nil => rfl
  | cons a l ih =>
    rw [List.dropWhile_cons]
    by_cases hp : (!isNL a) = true
    · rw [if_pos hp]
      exact ih
    · rw [if_neg hp]
      have : isNL a = true := by
        cases hh : isNL a
        · rw [hh] at hp; simp at hp
        · rfl
      simpa [headOkNL] using this

theorem stripF_headOkNL :
    ∀ (f : Nat) (s : List Char), s.length ≤ f → headOkNL s = true →
      headOkNL (stripF f s) = true := by
  intro f
  induction f with
  | zero =>
    intro s hl hh
    have : s = [] := List.length_eq_zero.mp (Nat.le_zero.mp hl)
    subst this
    rfl
  | succ f ih =>
    intro s hl hh
    cases s with
    | nil => rfl
    | cons c cs =>
      have hc : isNL c = true := hh
      have hlen : ((c :: cs).dropWhile isNL).length ≤ f := by
        have h1 : ((c :: cs).dropWhile isNL).length ≤ (cs.dropWhile isNL).length := by
          rw [List.dropWhile_cons, if_pos hc]
        have h2 := dropWhile_len_le isNL cs
        have := List.length_cons c cs ▸ hl
        omega
      cases h2 : (idxTok.isPrefixOf ((c :: cs).dropWhile isNL)
          && ((c :: cs).takeWhile isNL).getLast? == some '\n') with
      | true =>
        rw [stripF_cons_nl_hit f c cs hc h2]
        refine ih _ ?_ (headOkNL_dropWhile_not_nl _)
        calc ((((c :: cs).dropWhile isNL)).dropWhile (fun x => !isNL x)).length
            ≤ ((c :: cs).dropWhile isNL).length := dropWhile_len_le _ _
          _ ≤ f := hlen
      | false =>
        rw [stripF_cons_nl_miss f c cs hc h2]
        rw [List.takeWhile_cons, if_pos hc]
        simpa [headOkNL] using hc

theorem beq_false_of_nl_mismatch (a c : Char) (ha : isNL a = false) (hc : isNL c = true) :
    (a == c) = false := by
  cases h : a == c
  · rfl
  · have : a = c := by simpa using h
    subst this
    rw [ha] at hc
    simp at hc

theorem isPrefixOf_false_of_headOkNL (a : Char) (t' r : List Char)
    (ha : isNL a = false) (hr : headOkNL r = true) :
    (a :: t').isPrefixOf r = false := by
  cases r with
  | nil => rfl
  | cons x rs =>
    have hx : isNL x = true := hr
    have hax : (a == x) = false := beq_false_of_nl_mismatch a x ha hx
    simp [List.isPrefixOf, hax]

theorem stripF_firstline :
    ∀ (f : Nat) (s t : List Char), t ≠ [] → (∀ ch ∈ t, isNL ch = false) →
      t.isPrefixOf s = false → s.length ≤ f → t.isPrefixOf (stripF f s) = false := by
  intro f
  induction f with
  | zero =>
    intro s t _ _ hp _
    exact hp
  | succ f ih =>
    intro s t ht hnl hp hl
    cases s with
    | nil =>
      cases t with
      | nil => exact absurd rfl ht
      | cons a t' => rfl
    | cons c cs =>
      cases t with
      | nil => exact absurd rfl ht
      | cons a t' =>
        have ha : isNL a = false := hnl a (List.mem_cons_self a t')
        by_cases hc : isNL c = true
        · cases h2 : (idxTok.isPrefixOf ((c :: cs).dropWhile isNL)
              && ((c :: cs).takeWhile isNL).getLast? == some '\n') with
          | true =>
            rw [stripF_cons_nl_hit f c cs hc h2]
            have hlen : ((((c :: cs).dropWhile isNL)).dropWhile (fun x => !isNL x)).length ≤ f := by
              have h1 : ((c :: cs).dropWhile isNL).length ≤ (cs.dropWhile isNL).length := by
                rw [List.dropWhile_cons, if_pos hc]
              have h2' := dropWhile_len_le isNL cs
              have h3 := dropWhile_len_le (fun x => !isNL x) ((c :: cs).dropWhile isNL)
              have := List.length_cons c cs ▸ hl
              omega
            have hok : headOkNL (stripF f (((c :: cs).dropWhile isNL).dropWhile
                (fun x => !isNL x))) = true :=
              stripF_headOkNL f _ hlen (headOkNL_dropWhile_not_nl _)
            exact isPrefixOf_false_of_headOkNL a t' _ ha hok
          | false =>
            rw [stripF_cons_nl_miss f c cs hc h2]
            rw [List.takeWhile_cons, if_pos hc]
            have hax : (a == c) = false := beq_false_of_nl_mismatch a c ha hc
            simp [List.isPrefixOf, hax]
        · have hcf : isNL c = false := Bool.eq_false_iff.mpr hc
          rw [stripF_cons_not_nl f c cs hcf]
          by_cases hac : (a == c) = true
          · have hae : a = c := by simpa using hac
            cases t' with
            | nil =>
              subst hae
              simp [List.isPrefixOf] at hp
            | cons b t'' =>
              have hp' : (b :: t'').isPrefixOf cs = false := by
                simp only [List.isPrefixOf, hac, Bool.true_and] at hp
                exact hp
              have := ih cs (b :: t'') (by simp)
                (fun ch hch => hnl ch (List.mem_cons_of_mem a hch)) hp'
                (by have := List.length_cons c cs ▸ hl; omega)
              simp [List.isPrefixOf, hac, this]
          · have hacf : (a == c) = false := Bool.eq_false_iff.mpr hac
            simp [List.isPrefixOf, hacf]

theorem mem_takeWhile_sub {α : Type} (p : α → Bool) :
    ∀ (l : List α) (x : α), x ∈ l.takeWhile p → x ∈ l := by
  intro l
  induction l with
  | nil => intro x h; simp at h
  | cons a l ih =>
    intro x h
    rw [List.takeWhile_cons] at h
    by_cases hp : p a = true
    · rw [if_pos hp] at h
      rcases List.mem_cons.mp h with h | h
      · exact h ▸ List.mem_cons_self a l
      · exact List.mem_cons_of_mem a (ih x h)
    · rw [if_neg hp] at h
      simp at h

theorem getLast?_all_lf :
    ∀ l : List Char, l ≠ [] → (∀ x ∈ l, x = '\n') → l.getLast? = some '\n' := by
  intro l
  induction l with
  | nil => intro h _; exact absurd rfl h
  | cons a l ih =>
    intro _ hall
    cases l with
    | nil =>
      have : a = '\n' := hall a (List.mem_cons_self a [])
      simp [this]
    | cons b l' =>
      rw [List.getLast?_cons_cons]
      exact ih (by simp) (fun x hx => hall x (List.mem_cons_of_mem a hx))

theorem eq_lf_of_nl_not_cr (x : Char) (h1 : isNL x = true) (h2 : x ≠ '\r') : x = '\n' := by
  unfold isNL at h1
  rcases Bool.or_eq_true_iff.mp h1 with h | h
  · simpa using h
  · exact absurd (by simpa using h) h2

theorem noIdxAfterNL_append_nls (y : List Char) (hy1 : idxTok.isPrefixOf y = false)
    (hy2 : noIdxAfterNL y = true) :
    ∀ nls : List Char, (∀ c ∈ nls, isNL c = true) → noIdxAfterNL (nls ++ y) = true := by
  intro nls
  induction nls with
  | nil => intro _; simpa using hy2
  | cons n nls' ih =>
    intro hall
    have h2 : noIdxAfterNL (nls' ++ y) = true :=
      ih (fun c hc => hall c (List.mem_cons_of_mem n hc))
    have h1 : idxTok.isPrefixOf (nls' ++ y) = false := by
      cases nls' with
      | nil => simpa using hy1
      | cons m rest =>
        have hm : isNL m = true := hall m (by simp)
        have : ('i' == m) = false := beq_false_of_nl_mismatch 'i' m (by decide) hm
        simp [idxTok, List.isPrefixOf, this]
    simp [noIdxAfterNL, h1, h2]

theorem stripF_noIdxAfterNL :
    ∀ (f : Nat) (s : List Char), s.length ≤ f → (∀ ch ∈ s, ch ≠ '\r') →
      noIdxAfterNL (stripF f s) = true := by
  intro f
  induction f with
  | zero =>
    intro s hl _
    have : s = [] := List.length_eq_zero.mp (Nat.le_zero.mp hl)
    subst this
    rfl
  | succ f ih =>
    intro s hl hcr
    cases s with
    | nil => rfl
    | cons c cs =>
      have hlast : ∀ x ∈ (c :: cs).dropWhile isNL, x ≠ '\r' :=
        fun x hx => hcr x (mem_dropWhile_sub isNL _ x hx)
      by_cases hc : isNL c = true
      · have hlen1 : ((c :: cs).dropWhile isNL).length ≤ f := by
          have h1 : ((c :: cs).dropWhile isNL).length ≤ (cs.dropWhile isNL).length := by
            rw [List.dropWhile_cons, if_pos hc]
          have h2 := dropWhile_len_le isNL cs
          have := List.length_cons c cs ▸ hl
          omega
        cases h2 : (idxTok.isPrefixOf ((c :: cs).dropWhile isNL)
            && ((c :: cs).takeWhile isNL).getLast? == some '\n') with
        | true =>
          rw [stripF_cons_nl_hit f c cs hc h2]
          refine ih _ ?_ ?_
          · have := dropWhile_len_le (fun x => !isNL x) ((c :: cs).dropWhile isNL)
            omega
          · exact fun ch hch => hlast ch (mem_dropWhile_sub _ _ ch hch)
        | false =>
          rw [stripF_cons_nl_miss f c cs hc h2]
          have hrun_all : ∀ x ∈ (c :: cs).takeWhile isNL, x = '\n' := by
            intro x hx
            have hxnl : isNL x = true := List.mem_takeWhile_imp hx
            have hxcr : x ≠ '\r' := hcr x (mem_takeWhile_sub isNL _ x hx)
            exact eq_lf_of_nl_not_cr x hxnl hxcr
          have hrun_ne : (c :: cs).takeWhile isNL ≠ [] := by
            rw [List.takeWhile_cons, if_pos hc]
            simp
          have hglast : (((c :: cs).takeWhile isNL).getLast? == some '\n') = true := by
            rw [getLast?_all_lf _ hrun_ne hrun_all]
            simp
          have hpre : idxTok.isPrefixOf ((c :: cs).dropWhile isNL) = false := by
            cases hp : idxTok.isPrefixOf ((c :: cs).dropWhile isNL) with
            | false => rfl
            | true => rw [hp, hglast] at h2; simp at h2
          refine noIdxAfterNL_append_nls _ ?_ ?_ _ (fun x hx => List.mem_takeWhile_imp hx)
          · exact stripF_firstline f _ idxTok (by decide) (by decide) hpre hlen1
          · exact ih _ hlen1 hlast
      · have hcf : isNL c = false := Bool.eq_false_iff.mpr hc
        rw [stripF_cons_not_nl f c cs hcf]
        have hrest := ih cs (by have := List.length_cons c cs ▸ hl; omega)
          (fun ch hch => hcr ch (List.mem_cons_of_mem c hch))
        simp [noIdxAfterNL, hcf, hrest]

/-- Claim C7: `generateRecommendationDiff` hands the diff backend the
modified buffer `original[:TextStartIndex] + ConfigTemplate +
original[TextEndIndex:]`, labels the original side `RelPath + ".orig"` and
the modified side `RelPath`, and — for backend output of the actual
backend's shape (git-style, `\n` line endings, first line `diff --git ...`
rather than an `index` line) — its returned text contains no `index`
metadata line: neither as the first line nor after any newline. -/
theorem C7_generate_recommendation_diff
    (differ : String → String → List Char → List Char → List Char)
    (d : Dockerfile) (r : Recommendation) :
    generateRecommendationDiff differ d r =
      stripIndexMeta (differ (d.relPath ++ ".orig") d.relPath d.text
        (d.text.take r.flaggedConfig.textStartIndex ++ r.recommendedConfig.configTemplate
          ++ d.text.drop r.flaggedConfig.textEndIndex)) ∧
    (∀ out, out = differ (d.relPath ++ ".orig") d.relPath d.text
        (d.text.take r.flaggedConfig.textStartIndex ++ r.recommendedConfig.configTemplate
          ++ d.text.drop r.flaggedConfig.textEndIndex) →
      idxTok.isPrefixOf out = false → (∀ ch ∈ out, ch ≠ '\r') →
      idxTok.isPrefixOf (generateRecommendationDiff differ d r) = false ∧
      noIdxAfterNL (generateRecommendationDiff differ d r) = true) := by
  refine ⟨rfl, ?_⟩
  intro out hout h1 h2
  subst hout
  have hgen : generateRecommendationDiff differ d r
      = stripF (differ (d.relPath ++ ".orig") d.relPath d.text
        (d.text.take r.flaggedConfig.textStartIndex ++ r.recommendedConfig.configTemplate
          ++ d.text.drop r.flaggedConfig.textEndIndex)).length
        (differ (d.relPath ++ ".orig") d.relPath d.text
        (d.text.take r.flaggedConfig.textStartIndex ++ r.recommendedConfig.configTemplate
          ++ d.text.drop r.flaggedConfig.textEndIndex)) := rfl
  rw [hgen]
  exact ⟨stripF_firstline _ _ idxTok (by decide) (by decide) h1 (Nat.le_refl _),
    stripF_noIdxAfterNL _ _ (Nat.le_refl _) h2⟩

/-- Concrete diff backend used to witness claim C7: emits a git-style header
with an `index` metadata line. -/
def c7Differ : String → String → List Char → List Char → List Char :=
  fun origLabel modLabel _ _ =>
    ("diff --git " ++ origLabel ++ " " ++ modLabel
      ++ "\nindex 3f5a..9e2b 100644\n--- " ++ origLabel ++ "\n+++ " ++ modLabel
      ++ "\n-COPY . .\n+Copy $SRC .\n").toList

/-- Concrete Dockerfile used to witness claim C7. -/
def c7D : Dockerfile := ⟨"/a/app/Dockerfile", "app/Dockerfile", "FROM x\nCOPY . .\n".toList⟩

/-- Concrete recommendation used to witness claim C7. -/
def c7R : Recommendation :=
  { flaggedConfig :=
      { configTemplate := "Copy . .".toList
        textStartIndex := 7
        textEndIndex := 15
        path := "/a/app/Dockerfile" }
    recommendedConfig :=
      { configTemplate := "Copy $SRC .".toList, path := "/a/app/Dockerfile" } }

set_option maxRecDepth 4000 in
/-- Witness for claim C7 at a concrete backend, Dockerfile and
recommendation: the returned diff text starts with the `diff --git` header
and contains no `index` metadata line. -/
theorem C7_generate_recommendation_diff_witness :
    idxTok.isPrefixOf (generateRecommendationDiff c7Differ c7D c7R) = false ∧
    noIdxAfterNL (generateRecommendationDiff c7Differ c7D c7R) = true := by
  exact (C7_generate_recommendation_diff c7Differ c7D c7R).2
    (c7Differ (c7D.relPath ++ ".orig") c7D.relPath c7D.text
      (c7D.text.take c7R.flaggedConfig.textStartIndex ++ c7R.recommendedConfig.configTemplate
        ++ c7D.text.drop c7R.flaggedConfig.textEndIndex))
    rfl (by decide) (by decide)

/-- The Docker-type part of a build artifact (`a.DockerArtifact`), carrying
the Dockerfile path. -/
structure DockerArtifact where
  dockerfilePath : String
deriving DecidableEq

/-- A build artifact: a workspace and an optional Docker artifact. -/
structure Artifact where
  workspace : String
  dockerArtifact : Option DockerArtifact
deriving DecidableEq

/-- A parsed configuration unit: its source file and its build artifacts
(the fields the lint/inspect pipelines consume). -/
structure SkaffoldConfig where
  sourceFile : String
  artifacts : List Artifact
deriving DecidableEq

/-- Inner loop of `PrintDockerfilesList` over one config's build artifacts:
each not-yet-seen Docker artifact path is marked seen, its Dockerfile read
(`readF`, `none` embedding a read error) and its recommendations collected
via `getDockerfileRecommendations`; the Dockerfile values are collected
alongside.  Returns the updated seen set and both lists, or the first
error. -/
def collectArts (readF : String → Option (List Char)) (wd : String) :
    List Artifact → List String →
      Except String (List String × List Recommendation × List Dockerfile)
  | [], seen => .ok (seen, [], [])
  | a :: rest, seen =>
    match a.dockerArtifact with
    | none => collectArts readF wd rest seen
    | some da =>
      if pathJoin (pathJoin wd a.workspace) da.dockerfilePath ∈ seen then
        collectArts readF wd rest seen
      else
        match readF (pathJoin (pathJoin wd a.workspace) da.dockerfilePath) with
        | none => .error ("read error: " ++ pathJoin (pathJoin wd a.workspace) da.dockerfilePath)
        | some text =>
          match getDockerfileRecommendations
              ⟨pathJoin (pathJoin wd a.workspace) da.dockerfilePath,
                pathJoin a.workspace da.dockerfilePath, text⟩ with
          | .error e => .error e
          | .ok recs =>
            match collectArts readF wd rest
                (pathJoin (pathJoin wd a.workspace) da.dockerfilePath :: seen) with
            | .error e => .error e
            | .ok (seen', rs, ds) =>
              .ok (seen', recs ++ rs,
                (⟨pathJoin (pathJoin wd a.workspace) da.dockerfilePath,
                  pathJoin a.workspace da.dockerfilePath, text⟩ : Dockerfile) :: ds)

/-- Outer loop of `PrintDockerfilesList` over the configuration units,
threading the seen set and appending the collected lists in order. -/
def collectCfgs (readF : String → Option (List Char)) (wd : String) :
    List SkaffoldConfig → List String →
      Except String (List String × List Recommendation × List Dockerfile)
  | [], seen => .ok (seen, [], [])
  | c :: rest, seen =>
    match collectArts readF wd c.artifacts seen with
    | .error e => .error e
    | .ok (seen', rs, ds) =>
      match collectCfgs readF wd rest seen' with
      | .error e => .error e
      | .ok (seen'', rs', ds') => .ok (seen'', rs ++ rs', ds ++ ds')

/-- The output loop of `PrintDockerfilesList`
(`for i := range l.DockerfileRecs`): for the recommendation at position `i`
it prints the diff generated against `l.Dockerfiles[i]` (Go panics — here an
error — when there are more recommendations than Dockerfiles).  The printed
diffs are returned paired with their recommendation. -/
def printLoop (differ : String → String → List Char → List Char → List Char)
    (dfs : List Dockerfile) :
    List Recommendation → Nat → Except String (List (Recommendation × List Char))
  | [], _ => .ok []
  | r :: rest, i =>
    match dfs.get? i with
    | none => .error "index out of range"
    | some d =>
      match printLoop differ dfs rest (i + 1) with
      | .error e => .error e
      | .ok l => .ok ((r, generateRecommendationDiff differ d r) :: l)

/-- Embedding of `PrintDockerfilesList`: collect every not-yet-seen Dockerfile's
recommendations across the configuration units, then print one generated
diff per collected recommendation.  The config set, working directory, file
reads and the diff backend are external and passed as parameters; the
printed (recommendation, diff) pairs are returned in print order. -/
def PrintDockerfilesList (differ : String → String → List Char → List Char → List Char)
    (readF : String → Option (List Char)) (wd : String) (cfgs : List SkaffoldConfig) :
    Except String (List (Recommendation × List Char)) :=
  match collectCfgs readF wd cfgs [] with
  | .error e => .error e
  | .ok (_, recs, dfs) => printLoop differ dfs recs 0

theorem suggestOne_preserves_recommended (d : Dockerfile) (rec r' : Recommendation)
    (h : suggestOne d rec = some r') :
    r'.recommendedConfig.action = rec.recommendedConfig.action ∧
    r'.recommendedConfig.configTemplate = rec.recommendedConfig.configTemplate := by
  unfold suggestOne at h
  cases hidx : strIndex (toUpperL rec.flaggedConfig.configTemplate) (toUpperL d.text) with
  | none => rw [hidx] at h; exact Option.noConfusion h
  | some idx =>
    rw [hidx] at h
    injection h with h
    subst h
    exact ⟨rfl, rfl⟩

theorem printLoop_map_fst (differ : String → String → List Char → List Char → List Char)
    (dfs : List Dockerfile) :
    ∀ (recs : List Recommendation) (i : Nat) (l : List (Recommendation × List Char)),
      printLoop differ dfs recs i = .ok l → l.map Prod.fst = recs := by
  intro recs
  induction recs with
  | nil =>
    intro i l h
    unfold printLoop at h
    injection h with h
    subst h
    rfl
  | cons r rest ih =>
    intro i l h
    unfold printLoop at h
    cases hg : dfs.get? i with
    | none => rw [hg] at h; exact Except.noConfusion h
    | some d =>
      rw [hg] at h
      cases hp : printLoop differ dfs rest (i + 1) with
      | error e => rw [hp] at h; exact Except.noConfusion h
      | ok l' =>
        rw [hp] at h
        injection h with h
        subst h
        simp [ih _ _ hp]

/-- Claim C2 (amended): every catalog entry — and every recommendation the
string-equals matcher emits — with `RecommendedConfig.Action == Noop` has an
empty `RecommendedConfig.ConfigTemplate`; however, `PrintDockerfilesList`
generates a diff for every collected recommendation with no `Noop` check,
so a diff is generated for `Noop` recommendations too (deleting the flagged
span, since the spliced template is empty). -/
theorem C2_noop_recommendations (d : Dockerfile) :
    (∀ r ∈ StringEqualsRecs, r.recommendedConfig.action = .noop →
      r.recommendedConfig.configTemplate = []) ∧
    (∀ r' ∈ suggestList StringEqualsRecs d, r'.recommendedConfig.action = .noop →
      r'.recommendedConfig.configTemplate = []) ∧
    (∀ (differ : String → String → List Char → List Char → List Char)
      (dfs : List Dockerfile) (recs : List Recommendation) (i : Nat)
      (l : List (Recommendation × List Char)),
      printLoop differ dfs recs i = .ok l → l.map Prod.fst = recs) := by
  refine ⟨by decide, ?_, fun differ dfs recs i l h => printLoop_map_fst differ dfs recs i l h⟩
  intro r' hr' hnoop
  obtain ⟨rec, hrec, hone⟩ := List.mem_filterMap.mp hr'
  obtain ⟨hact, htmpl⟩ := suggestOne_preserves_recommended d rec r' hone
  rw [htmpl]
  have hcat : ∀ r ∈ StringEqualsRecs, r.recommendedConfig.action = .noop →
      r.recommendedConfig.configTemplate = [] := by decide
  exact hcat rec hrec (hact ▸ hnoop)

/-- Dockerfile text of the claim C2 scenario: exactly the catalog's
`Noop`-entry flagged template, so only that entry matches. -/
def c2Text : List Char :=
  "Testing what only flagged recommendation w/ no rec looks like".toList

/-- Config set of the claim C2 scenario: one unit with one Docker
artifact. -/
def c2Cfg : SkaffoldConfig := ⟨"skaffold.yaml", [⟨"ws", some ⟨"Dockerfile"⟩⟩]⟩

/-- Trivial diff backend of the claim C2 scenario. -/
def c2Differ : String → String → List Char → List Char → List Char := fun _ _ _ _ => ['D']

/-- The Dockerfile value collected in the claim C2 scenario. -/
def c2D : Dockerfile := ⟨"wd/ws/Dockerfile", "ws/Dockerfile", c2Text⟩

/-- The `Noop` recommendation emitted in the claim C2 scenario. -/
def c2NoopOut : Recommendation :=
  { flaggedConfig :=
      { configTemplate := c2Text
        action := .replace
        textStartIndex := 0
        textEndIndex := 61
        path := "wd/ws/Dockerfile" }
    recommendedConfig := { action := .noop, path := "wd/ws/Dockerfile" } }

set_option maxRecDepth 8000 in
/-- Claim C2 counterexample: a `PrintDockerfilesList` run on a Dockerfile
matching only the catalog's `Noop` entry returns (prints) a generated diff
for that `Noop` recommendation — the claim's "no diff is generated for it"
is false on the code, which has no `Noop` check in the print loop. -/
theorem C2_counterexample :
    (PrintDockerfilesList c2Differ (fun _ => some c2Text) "wd" [c2Cfg]).map
        (List.map (fun p => (p.1.recommendedConfig.action, p.2)))
      = Except.ok [(Action.noop, ['D'])] := by
  decide

set_option maxRecDepth 8000 in
/-- Witness for claim C2 (amended) at the concrete scenario run. -/
theorem C2_noop_recommendations_witness :
    c2NoopOut ∈ suggestList StringEqualsRecs c2D ∧
    c2NoopOut.recommendedConfig.action = .noop ∧
    c2NoopOut.recommendedConfig.configTemplate = [] ∧
    printLoop c2Differ [c2D] [c2NoopOut] 0 = .ok [(c2NoopOut, ['D'])] ∧
    [(c2NoopOut, (['D'] : List Char))].map Prod.fst = [c2NoopOut] := by
  have h := C2_noop_recommendations c2D
  refine ⟨by decide, by decide, h.2.1 c2NoopOut (by decide) (by decide), by decide, ?_⟩
  exact h.2.2 c2Differ [c2D] [c2NoopOut] 0 [(c2NoopOut, ['D'])] (by decide)

/-- The `ConfigFile` struct of the `lint` package. -/
structure ConfigFile where
  absPath : String
  relPath : String
  text : String
deriving DecidableEq

/-- The `LintInputs` handed to each linter: the skaffold.yaml under test,
the Dockerfile dependency side-table (an association list embedding the Go
map) and the parsed config. -/
structure LintInputs where
  configFile : ConfigFile
  dockerfileToDepMap : List (String × List String)
  skaffoldConfig : SkaffoldConfig

/-- A linter result.  The `lint` package's `Result` fields are irrelevant to
the claims — only their multiplicity matters — so a single payload field is
kept. -/
structure Result where
  explanation : String := ""
deriving DecidableEq

/-- Rule type tags of the `lint` package used in this slice. -/
inductive RuleType where
  | regExpLintRule
  | yamlFieldLintRule
deriving DecidableEq

/-- A rule's YAML field filter: the lookup path of the external
`yaml.Lookup`/`FieldMatcher` filter and the invert flag. -/
structure YamlFieldFilter where
  filterPath : List String := []
  invertMatch : Bool := false
deriving DecidableEq

/-- A lint rule record (the fields this slice constructs). -/
structure Rule where
  ruleType : RuleType
  filter : YamlFieldFilter := {}
  ruleID : Nat := 0
  explanationTemplate : String := ""

/-- A linter (`RegExpLinter`, `YamlFieldLinter` — implementations external
to this slice): evaluates a rule list against lint inputs, possibly
failing. -/
def Linter : Type := LintInputs → List Rule → Except String (List Result)

/-- Go `strings.TrimPrefix`. -/
def trimPre (pre s : String) : String :=
  if pre.isPrefixOf s then s.drop pre.length else s

/-- Trace events instrumenting the orchestrator: a dependency extraction for
the Dockerfile at `path`, or the invocation of linter number `linterIdx`,
both tagged with the position `cfgIdx` of the configuration unit being
processed at that moment. -/
inductive Event where
  | extract (cfgIdx : Nat) (path : String)
  | lint (cfgIdx : Nat) (linterIdx : Nat)
deriving DecidableEq

/-- Whether an event is a linter invocation. -/
def Event.isLint : Event → Bool
  | .lint _ _ => true
  | .extract _ _ => false

/-- Whether an event is a dependency extraction. -/
def Event.isExtract : Event → Bool
  | .lint _ _ => false
  | .extract _ _ => true

/-- The configuration-unit index of an event. -/
def Event.idx : Event → Nat
  | .extract i _ => i
  | .lint i _ => i

/-- Errors of `GetSkaffoldYamlsLintResults`.  Go returns the underlying
error value as-is; the constructor records which `return nil, err` site
produced it, with its loop indices. -/
inductive RunError where
  | readErr (path : String)
  | extractErr (cfgIdx : Nat) (path : String) (msg : String)
  | lintErr (cfgIdx : Nat) (linterIdx : Nat) (msg : String)
deriving DecidableEq

/-- Instrumented result of the dependency-building loop. -/
structure BuildOut where
  evs : List Event
  seen : List String
  depMap : List (String × List String)
  err : Option RunError
deriving DecidableEq

/-- The dependency-building loop of `GetSkaffoldYamlsLintResults` over one
config's artifacts: each not-yet-seen Docker artifact path
(`filepath.Join(filepath.Join(workdir, a.Workspace), a.DockerArtifact.DockerfilePath)`)
is marked seen and handed to the external extractor `getDeps`; a failure
aborts the loop with that extraction error, a success appends the
dependency list to the side-table. -/
def buildDeps (getDeps : String → Except String (List String)) (cfgIdx : Nat) (wd : String) :
    List Artifact → List String → List (String × List String) → BuildOut
  | [], seen, depMap => ⟨[], seen, depMap, none⟩
  | a :: rest, seen, depMap =>
    match a.dockerArtifact with
    | none => buildDeps getDeps cfgIdx wd rest seen depMap
    | some da =>
      if pathJoin (pathJoin wd a.workspace) da.dockerfilePath ∈ seen then
        buildDeps getDeps cfgIdx wd rest seen depMap
      else
        match getDeps (pathJoin (pathJoin wd a.workspace) da.dockerfilePath) with
        | .error e =>
          ⟨[Event.extract cfgIdx (pathJoin (pathJoin wd a.workspace) da.dockerfilePath)],
            pathJoin (pathJoin wd a.workspace) da.dockerfilePath :: seen, depMap,
            some (.extractErr cfgIdx (pathJoin (pathJoin wd a.workspace) da.dockerfilePath) e)⟩
        | .ok deps =>
          match buildDeps getDeps cfgIdx wd rest
              (pathJoin (pathJoin wd a.workspace) da.dockerfilePath :: seen)
              (depMap ++ [(pathJoin (pathJoin wd a.workspace) da.dockerfilePath, deps)]) with
          | ⟨evs, seen', depMap', err⟩ =>
            ⟨Event.extract cfgIdx (pathJoin (pathJoin wd a.workspace) da.dockerfilePath) :: evs,
              seen', depMap', err⟩

/-- Instrumented result of the linter loop. -/
structure LintersOut where
  evs : List Event
  res : List Result
  err : Option RunError
deriving DecidableEq

/-- The linter loop of `GetSkaffoldYamlsLintResults` for one config unit:
invoke each linter in order (each invocation records a lint event); the
first linter error aborts the loop, otherwise the results accumulate. -/
def runLinters (cfgIdx : Nat) (li : LintInputs) (rules : List Rule) :
    List Linter → Nat → LintersOut
  | [], _ => ⟨[], [], none⟩
  | lr :: rest, j =>
    match lr li rules with
    | .error e => ⟨[Event.lint cfgIdx j], [], some (.lintErr cfgIdx j e)⟩
    | .ok res =>
      match runLinters cfgIdx li rules rest (j + 1) with
      | ⟨evs, res', err⟩ => ⟨Event.lint cfgIdx j :: evs, res ++ res', err⟩

/-- Instrumented output of the orchestrator: the event trace, the final
dependency side-table (a local map in Go, returned here so claims can speak
about it), and the Go return value. -/
structure RunOut where
  trace : List Event
  depMap : List (String × List String)
  result : Except RunError (List Result)
deriving DecidableEq

/-- The per-config loop of `GetSkaffoldYamlsLintResults`: read the config's
source file, extend the dependency side-table from its Docker artifacts
(aborting the run on extraction failure), then run every linter on the
assembled lint inputs (aborting the run on linter failure), accumulating
the results across units.  The seen set and side-table thread through the
whole run. -/
def runAll (wd : String) (readFile : String → Option String)
    (getDeps : String → Except String (List String))
    (linters : List Linter) (rules : List Rule) :
    List SkaffoldConfig → Nat → List String → List (String × List String) → List Result →
      RunOut
  | [], _, _, depMap, acc => ⟨[], depMap, .ok acc⟩
  | c :: rest, i, seen, depMap, acc =>
    match readFile c.sourceFile with
    | none => ⟨[], depMap, .error (.readErr c.sourceFile)⟩
    | some text =>
      match buildDeps getDeps i wd c.artifacts seen depMap with
      | ⟨ev1, _, depMap', some e⟩ => ⟨ev1, depMap', .error e⟩
      | ⟨ev1, seen', depMap', none⟩ =>
        match runLinters i ⟨⟨c.sourceFile, trimPre wd c.sourceFile, text⟩, depMap', c⟩
            rules linters 0 with
        | ⟨ev2, _, some e⟩ => ⟨ev1 ++ ev2, depMap', .error e⟩
        | ⟨ev2, res, none⟩ =>
          match runAll wd readFile getDeps linters rules rest (i + 1) seen' depMap'
              (acc ++ res) with
          | ⟨tr, dm, r⟩ => ⟨ev1 ++ ev2 ++ tr, dm, r⟩

/-- Embedding of `GetSkaffoldYamlsLintResults`: run the lint pipeline over the parsed
config set.  The config-set loader, working directory, file reads, the
dependency extractor and the linters are external and passed as values. -/
def GetSkaffoldYamlsLintResults (wd : String) (readFile : String → Option String)
    (getDeps : String → Except String (List String))
    (linters : List Linter) (rules : List Rule) (cfgs : List SkaffoldConfig) : RunOut :=
  runAll wd readFile getDeps linters rules cfgs 0 [] [] []

/-- The synthetic nested rule set of the sync rule's first lint condition:
one `YamlFieldLintRule` with filter `yaml.Lookup("build", "sync")` and
`InvertMatch: true`. -/
def syncNestedRules : List Rule :=
  [{ ruleType := .yamlFieldLintRule
     filter := { filterPath := ["build", "sync"], invertMatch := true } }]

/-- First `LintConditions` entry of the `SkaffoldYamlSyncPython` rule: run a
nested `YamlFieldLinter.Lint` (implementation external, passed as
`yamlFieldLint`) over the synthetic no-sync-stanza rule; an error yields
`false`, otherwise `true` iff the nested lint flagged something. -/
def syncRuleCondition1 (yamlFieldLint : Linter) (li : LintInputs) : Bool :=
  match yamlFieldLint li syncNestedRules with
  | .error _ => false
  | .ok recs => decide (0 < recs.length)

/-- Second `LintConditions` entry of the `SkaffoldYamlSyncPython` rule: some
entry of the Dockerfile dependency side-table has a dependency with suffix
`.py`. -/
def syncRuleCondition2 (li : LintInputs) : Bool :=
  li.dockerfileToDepMap.any (fun p => p.2.any (fun dep => dep.endsWith ".py"))

/-- Claim C8: the lint preconditions are total boolean predicates over the
lint inputs — their type admits no error channel to propagate — and the
sync rule's nested-lint condition returns `false` whenever the nested
`Lint` call errors, so the rule does not fire. -/
theorem C8_gate_errors_fail_closed (yamlFieldLint : Linter) (li : LintInputs) (e : String)
    (h : yamlFieldLint li syncNestedRules = .error e) :
    syncRuleCondition1 yamlFieldLint li = false := by
  unfold syncRuleCondition1
  rw [h]

/-- Concrete lint inputs used to witness claim C8. -/
def c8Inputs : LintInputs :=
  ⟨⟨"/w/skaffold.yaml", "skaffold.yaml", "apiVersion: skaffold/v2"⟩, [],
    ⟨"/w/skaffold.yaml", []⟩⟩

/-- A nested linter that always fails, used to witness claim C8. -/
def c8FailingLinter : Linter := fun _ _ => .error "nested lint failed"

/-- Witness for claim C8 at a concrete failing nested linter. -/
theorem C8_gate_errors_fail_closed_witness :
    c8FailingLinter c8Inputs syncNestedRules = .error "nested lint failed" ∧
    syncRuleCondition1 c8FailingLinter c8Inputs = false :=
  ⟨rfl, C8_gate_errors_fail_closed c8FailingLinter c8Inputs "nested lint failed" rfl⟩

/-- The Dockerfile paths of the extraction events of a trace, in order. -/
def extractPaths (t : List Event) : List String :=
  t.filterMap (fun e => match e with | .extract _ p => some p | .lint _ _ => none)

theorem buildDeps_events (getDeps : String → Except String (List String)) (cfgIdx : Nat)
    (wd : String) :
    ∀ (arts : List Artifact) (seen : List String) (depMap : List (String × List String)),
      ∀ e ∈ (buildDeps getDeps cfgIdx wd arts seen depMap).evs,
        e.isExtract = true ∧ e.idx = cfgIdx := by
  intro arts
  induction arts with
  | nil => intro seen depMap e he; simp [buildDeps] at he
  | cons a rest ih =>
    intro seen depMap e he
    unfold buildDeps at he
    cases hda : a.dockerArtifact with
    | none =>
      simp only [hda] at he
      exact ih seen depMap e he
    | some da =>
      simp only [hda] at he
      by_cases hs : pathJoin (pathJoin wd a.workspace) da.dockerfilePath ∈ seen
      · rw [if_pos hs] at he
        exact ih seen depMap e he
      · rw [if_neg hs] at he
        cases hg : getDeps (pathJoin (pathJoin wd a.workspace) da.dockerfilePath) with
        | error er =>
          rw [hg] at he
          simp at he
          subst he
          exact ⟨rfl, rfl⟩
        | ok deps =>
          simp only [hg] at he
          simp at he
          rcases he with rfl | he
          · exact ⟨rfl, rfl⟩
          · exact ih _ _ e he

theorem buildDeps_err (getDeps : String → Except String (List String)) (cfgIdx : Nat)
    (wd : String) :
    ∀ (arts : List Artifact) (seen : List String) (depMap : List (String × List String))
      (er : RunError), (buildDeps getDeps cfgIdx wd arts seen depMap).err = some er →
        ∃ p m, er = .extractErr cfgIdx p m := by
  intro arts
  induction arts with
  | nil => intro seen depMap er h; simp [buildDeps] at h
  | cons a rest ih =>
    intro seen depMap er h
    unfold buildDeps at h
    cases hda : a.dockerArtifact with
    | none =>
      simp only [hda] at h
      exact ih seen depMap er h
    | some da =>
      simp only [hda] at h
      by_cases hs : pathJoin (pathJoin wd a.workspace) da.dockerfilePath ∈ seen
      · rw [if_pos hs] at h
        exact ih seen depMap er h
      · rw [if_neg hs] at h
        cases hg : getDeps (pathJoin (pathJoin wd a.workspace) da.dockerfilePath) with
        | error e =>
          rw [hg] at h
          simp at h
          exact ⟨_, _, h.symm⟩
        | ok deps =>
          simp only [hg] at h
          exact ih _ _ er h

theorem runLinters_events (cfgIdx : Nat) (li : LintInputs) (rules : List Rule) :
    ∀ (lrs : List Linter) (j : Nat),
      ∀ e ∈ (runLinters cfgIdx li rules lrs j).evs,
        ∃ j', e = .lint cfgIdx j' ∧ j ≤ j' := by
  intro lrs
  induction lrs with
  | nil => intro j e he; simp [runLinters] at he
  | cons lr rest ih =>
    intro j e he
    unfold runLinters at he
    cases hl : lr li rules with
    | error er =>
      rw [hl] at he
      simp at he
      subst he
      exact ⟨j, rfl, Nat.le_refl j⟩
    | ok res =>
      rw [hl] at he
      cases hrec : runLinters cfgIdx li rules rest (j + 1) with
      | mk evs res' err =>
        rw [hrec] at he
        simp at he
        rcases he with rfl | he
        · exact ⟨j, rfl, Nat.le_refl j⟩
        · have := ih (j + 1) e
          rw [hrec] at this
          obtain ⟨j', hj', hle⟩ := this he
          exact ⟨j', hj', by omega⟩

theorem runLinters_err (cfgIdx : Nat) (li : LintInputs) (rules : List Rule) :
    ∀ (lrs : List Linter) (j : Nat) (er : RunError),
      (runLinters cfgIdx li rules lrs j).err = some er →
        ∃ jf m, er = .lintErr cfgIdx jf m ∧ j ≤ jf ∧
          ∀ e ∈ (runLinters cfgIdx li rules lrs j).evs,
            ∀ jj, e = .lint cfgIdx jj → jj ≤ jf := by
  intro lrs
  induction lrs with
  | nil => intro j er h; simp [runLinters] at h
  | cons lr rest ih =>
    intro j er h
    unfold runLinters at h
    cases hl : lr li rules with
    | error e =>
      rw [hl] at h
      simp at h
      refine ⟨j, e, h.symm, Nat.le_refl j, ?_⟩
      intro ev hev jj hjj
      unfold runLinters at hev
      rw [hl] at hev
      simp at hev
      rw [hev] at hjj
      injection hjj with _ hjj
      omega
    | ok res =>
      rw [hl] at h
      cases hrec : runLinters cfgIdx li rules rest (j + 1) with
      | mk evs res' err =>
        rw [hrec] at h
        simp at h
        have := ih (j + 1) er
        rw [hrec] at this
        obtain ⟨jf, m, hm, hle, hall⟩ := this h
        refine ⟨jf, m, hm, by omega, ?_⟩
        intro ev hev jj hjj
        unfold runLinters at hev
        rw [hl, hrec] at hev
        simp at hev
        rcases hev with rfl | hev
        · injection hjj with _ hjj
          omega
        · exact hall ev hev jj hjj

theorem extractPaths_nil_of_all_lint :
    ∀ t : List Event, (∀ e ∈ t, e.isLint = true) → extractPaths t = [] := by
  intro t
  induction t with
  | nil => intro _; rfl
  | cons e t ih =>
    intro h
    have he := h e (List.mem_cons_self e t)
    cases e with
    | extract i p => simp [Event.isLint] at he
    | lint i j =>
      have : extractPaths (Event.lint i j :: t) = extractPaths t := by
        simp [extractPaths, List.filterMap_cons]
      rw [this]
      exact ih (fun e' he' => h e' (List.mem_cons_of_mem _ he'))

theorem runLinters_no_extract (cfgIdx : Nat) (li : LintInputs) (rules : List Rule)
    (lrs : List Linter) (j : Nat) :
    extractPaths (runLinters cfgIdx li rules lrs j).evs = [] := by
  refine extractPaths_nil_of_all_lint _ (fun e he => ?_)
  obtain ⟨j', hj', _⟩ := runLinters_events cfgIdx li rules lrs j e he
  subst hj'
  rfl

theorem pairwise_of_forall_left {α : Type} {R : α → α → Prop} :
    ∀ l : List α, (∀ e ∈ l, ∀ e', R e e') → l.Pairwise R := by
  intro l
  induction l with
  | nil => intro _; exact List.Pairwise.nil
  | cons a l ih =>
    intro h
    exact List.Pairwise.cons (fun a' _ => h a (List.mem_cons_self a l) a')
      (ih fun e he e' => h e (List.mem_cons_of_mem a he) e')

theorem pairwise_of_forall_right {α : Type} {R : α → α → Prop} :
    ∀ l : List α, (∀ e' ∈ l, ∀ e, R e e') → l.Pairwise R := by
  intro l
  induction l with
  | nil => intro _; exact List.Pairwise.nil
  | cons a l ih =>
    intro h
    exact List.Pairwise.cons (fun a' ha' => h a' (List.mem_cons_of_mem a ha') a)
      (ih fun e he e' => h e (List.mem_cons_of_mem a he) e')

theorem runAll_read_none (wd : String) (readFile : String → Option String)
    (getDeps : String → Except String (List String)) (linters : List Linter)
    (rules : List Rule) (c : SkaffoldConfig) (rest : List SkaffoldConfig) (i0 : Nat)
    (seen : List String) (depMap : List (String × List String)) (acc : List Result)
    (h : readFile c.sourceFile = none) :
    runAll wd readFile getDeps linters rules (c :: rest) i0 seen depMap acc
      = ⟨[], depMap, .error (.readErr c.sourceFile)⟩ := by
  simp [runAll, h]

theorem runAll_bd_err (wd : String) (readFile : String → Option String)
    (getDeps : String → Except String (List String)) (linters : List Linter)
    (rules : List Rule) (c : SkaffoldConfig) (rest : List SkaffoldConfig) (i0 : Nat)
    (seen : List String) (depMap : List (String × List String)) (acc : List Result)
    (text : String) (ev1 : List Event) (seen' : List String)
    (depMap' : List (String × List String)) (e : RunError)
    (h : readFile c.sourceFile = some text)
    (hb : buildDeps getDeps i0 wd c.artifacts seen depMap = ⟨ev1, seen', depMap', some e⟩) :
    runAll wd readFile getDeps linters rules (c :: rest) i0 seen depMap acc
      = ⟨ev1, depMap', .error e⟩ := by
  simp [runAll, h, hb]

theorem runAll_rl_err (wd : String) (readFile : String → Option String)
    (getDeps : String → Except String (List String)) (linters : List Linter)
    (rules : List Rule) (c : SkaffoldConfig) (rest : List SkaffoldConfig) (i0 : Nat)
    (seen : List String) (depMap : List (String × List String)) (acc : List Result)
    (text : String) (ev1 : List Event) (seen' : List String)
    (depMap' : List (String × List String)) (ev2 : List Event) (res : List Result)
    (e : RunError)
    (h : readFile c.sourceFile = some text)
    (hb : buildDeps getDeps i0 wd c.artifacts seen depMap = ⟨ev1, seen', depMap', none⟩)
    (hl : runLinters i0 ⟨⟨c.sourceFile, trimPre wd c.sourceFile, text⟩, depMap', c⟩
        rules linters 0 = ⟨ev2, res, some e⟩) :
    runAll wd readFile getDeps linters rules (c :: rest) i0 seen depMap acc
      = ⟨ev1 ++ ev2, depMap', .error e⟩ := by
  simp [runAll, h, hb, hl]

theorem runAll_step_ok (wd : String) (readFile : String → Option String)
    (getDeps : String → Except String (List String)) (linters : List Linter)
    (rules : List Rule) (c : SkaffoldConfig) (rest : List SkaffoldConfig) (i0 : Nat)
    (seen : List String) (depMap : List (String × List String)) (acc : List Result)
    (text : String) (ev1 : List Event) (seen' : List String)
    (depMap' : List (String × List String)) (ev2 : List Event) (res : List Result)
    (h : readFile c.sourceFile = some text)
    (hb : buildDeps getDeps i0 wd c.artifacts seen depMap = ⟨ev1, seen', depMap', none⟩)
    (hl : runLinters i0 ⟨⟨c.sourceFile, trimPre wd c.sourceFile, text⟩, depMap', c⟩
        rules linters 0 = ⟨ev2, res, none⟩) :
    runAll wd readFile getDeps linters rules (c :: rest) i0 seen depMap acc
      = ⟨ev1 ++ ev2
            ++ (runAll wd readFile getDeps linters rules rest (i0 + 1) seen' depMap'
                (acc ++ res)).trace,
          (runAll wd readFile getDeps linters rules rest (i0 + 1) seen' depMap'
            (acc ++ res)).depMap,
          (runAll wd readFile getDeps linters rules rest (i0 + 1) seen' depMap'
            (acc ++ res)).result⟩ := by
  simp [runAll, h, hb, hl]

theorem runAll_events_idx_ge (wd : String) (readFile : String → Option String)
    (getDeps : String → Except String (List String)) (linters : List Linter)
    (rules : List Rule) :
    ∀ (cfgs : List SkaffoldConfig) (i0 : Nat) (seen : List String)
      (depMap : List (String × List String)) (acc : List Result),
      ∀ e ∈ (runAll wd readFile getDeps linters rules cfgs i0 seen depMap acc).trace,
        i0 ≤ e.idx := by
  intro cfgs
  induction cfgs with
  | nil => intro i0 seen depMap acc e he; simp [runAll] at he
  | cons c rest ih =>
    intro i0 seen depMap acc e he
    cases hr : readFile c.sourceFile with
    | none =>
      rw [runAll_read_none wd readFile getDeps linters rules c rest i0 seen depMap acc hr] at he
      simp at he
    | some text =>
      cases hb : buildDeps getDeps i0 wd c.artifacts seen depMap with
      | mk ev1 seen' depMap' berr =>
        have hbe : ∀ e ∈ ev1, e.isExtract = true ∧ e.idx = i0 := by
          intro e' he'
          have := buildDeps_events getDeps i0 wd c.artifacts seen depMap e'
          rw [hb] at this
          exact this he'
        cases berr with
        | some e2 =>
          rw [runAll_bd_err wd readFile getDeps linters rules c rest i0 seen depMap acc
            text ev1 seen' depMap' e2 hr hb] at he
          simp at he
          exact (hbe e he).2.ge
        | none =>
          cases hl : runLinters i0 ⟨⟨c.sourceFile, trimPre wd c.sourceFile, text⟩, depMap', c⟩
              rules linters 0 with
          | mk ev2 res lerr =>
            have hle : ∀ e ∈ ev2, ∃ j', e = .lint i0 j' ∧ 0 ≤ j' := by
              intro e' he'
              have := runLinters_events i0
                ⟨⟨c.sourceFile, trimPre wd c.sourceFile, text⟩, depMap', c⟩ rules linters 0 e'
              rw [hl] at this
              exact this he'
            cases lerr with
            | some e2 =>
              rw [runAll_rl_err wd readFile getDeps linters rules c rest i0 seen depMap acc
                text ev1 seen' depMap' ev2 res e2 hr hb hl] at he
              simp at he
              rcases he with he | he
              · exact (hbe e he).2.ge
              · obtain ⟨j', hj', _⟩ := hle e he
                subst hj'
                exact Nat.le_refl i0
            | none =>
              rw [runAll_step_ok wd readFile getDeps linters rules c rest i0 seen depMap acc
                text ev1 seen' depMap' ev2 res hr hb hl] at he
              simp at he
              rcases he with he | he | he
              · exact (hbe e he).2.ge
              · obtain ⟨j', hj', _⟩ := hle e he
                subst hj'
                exact Nat.le_refl i0
              · have := ih (i0 + 1) seen' depMap' (acc ++ res) e he
                omega

theorem event_not_lint_of_extract : ∀ e : Event, e.isExtract = true → e.isLint = false := by
  intro e h
  cases e with
  | extract i p => rfl
  | lint i j => simp [Event.isExtract] at h

theorem event_not_extract_of_lint : ∀ e : Event, e.isLint = true → e.isExtract = false := by
  intro e h
  cases e with
  | extract i p => simp [Event.isLint] at h
  | lint i j => rfl

theorem runAll_no_extract_after_lint (wd : String) (readFile : String → Option String)
    (getDeps : String → Except String (List String)) (linters : List Linter)
    (rules : List Rule) :
    ∀ (cfgs : List SkaffoldConfig) (i0 : Nat) (seen : List String)
      (depMap : List (String × List String)) (acc : List Result),
      (runAll wd readFile getDeps linters rules cfgs i0 seen depMap acc).trace.Pairwise
        (fun e e' => e.isLint = true → e'.isExtract = true → e.idx ≠ e'.idx) := by
  intro cfgs
  induction cfgs with
  | nil => intro i0 seen depMap acc; simp [runAll]
  | cons c rest ih =>
    intro i0 seen depMap acc
    cases hr : readFile c.sourceFile with
    | none =>
      rw [runAll_read_none wd readFile getDeps linters rules c rest i0 seen depMap acc hr]
      exact List.Pairwise.nil
    | some text =>
      cases hb : buildDeps getDeps i0 wd c.artifacts seen depMap with
      | mk ev1 seen' depMap' berr =>
        have hbe : ∀ e ∈ ev1, e.isExtract = true ∧ e.idx = i0 := by
          intro e' he'
          have := buildDeps_events getDeps i0 wd c.artifacts seen depMap e'
          rw [hb] at this
          exact this he'
        have hp1 : ev1.Pairwise
            (fun e e' => e.isLint = true → e'.isExtract = true → e.idx ≠ e'.idx) :=
          pairwise_of_forall_left ev1 (fun e he e' hlint _ => by
            rw [event_not_lint_of_extract e (hbe e he).1] at hlint
            exact absurd hlint (by simp))
        cases berr with
        | some e2 =>
          rw [runAll_bd_err wd readFile getDeps linters rules c rest i0 seen depMap acc
            text ev1 seen' depMap' e2 hr hb]
          exact hp1
        | none =>
          cases hl : runLinters i0 ⟨⟨c.sourceFile, trimPre wd c.sourceFile, text⟩, depMap', c⟩
              rules linters 0 with
          | mk ev2 res lerr =>
            have hle : ∀ e ∈ ev2, ∃ j', e = .lint i0 j' := by
              intro e' he'
              have := runLinters_events i0
                ⟨⟨c.sourceFile, trimPre wd c.sourceFile, text⟩, depMap', c⟩ rules linters 0 e'
              rw [hl] at this
              obtain ⟨j', hj', _⟩ := this he'
              exact ⟨j', hj'⟩
            have hp2 : ev2.Pairwise
                (fun e e' => e.isLint = true → e'.isExtract = true → e.idx ≠ e'.idx) :=
              pairwise_of_forall_right ev2 (fun e' he' e _ hex => by
                obtain ⟨j', hj'⟩ := hle e' he'
                subst hj'
                simp [Event.isExtract] at hex)
            have hcross12 : ∀ e ∈ ev1, ∀ e' ∈ ev2,
                e.isLint = true → e'.isExtract = true → e.idx ≠ e'.idx := by
              intro e he e' _ hlint _
              rw [event_not_lint_of_extract e (hbe e he).1] at hlint
              exact absurd hlint (by simp)
            have hp12 : (ev1 ++ ev2).Pairwise
                (fun e e' => e.isLint = true → e'.isExtract = true → e.idx ≠ e'.idx) :=
              List.pairwise_append.mpr ⟨hp1, hp2, hcross12⟩
            cases lerr with
            | some e2 =>
              rw [runAll_rl_err wd readFile getDeps linters rules c rest i0 seen depMap acc
                text ev1 seen' depMap' ev2 res e2 hr hb hl]
              exact hp12
            | none =>
              rw [runAll_step_ok wd readFile getDeps linters rules c rest i0 seen depMap acc
                text ev1 seen' depMap' ev2 res hr hb hl]
              refine List.pairwise_append.mpr ⟨hp12, ih (i0 + 1) seen' depMap' (acc ++ res), ?_⟩
              intro e he e' he' hlint hex
              have hge := runAll_events_idx_ge wd readFile getDeps linters rules rest (i0 + 1)
                seen' depMap' (acc ++ res) e' he'
              rcases List.mem_append.mp he with he | he
              · rw [event_not_lint_of_extract e (hbe e he).1] at hlint
                exact absurd hlint (by simp)
              · obtain ⟨j', hj'⟩ := hle e he
                subst hj'
                have : (Event.lint i0 j').idx = i0 := rfl
                omega

theorem runAll_extractErr_no_lint (wd : String) (readFile : String → Option String)
    (getDeps : String → Except String (List String)) (linters : List Linter)
    (rules : List Rule) :
    ∀ (cfgs : List SkaffoldConfig) (i0 : Nat) (seen : List String)
      (depMap : List (String × List String)) (acc : List Result) (i : Nat) (p : String)
      (m : String),
      (runAll wd readFile getDeps linters rules cfgs i0 seen depMap acc).result
          = .error (.extractErr i p m) →
        i0 ≤ i ∧ ∀ e ∈ (runAll wd readFile getDeps linters rules cfgs i0 seen depMap acc).trace,
          e.isLint = true → e.idx < i := by
  intro cfgs
  induction cfgs with
  | nil => intro i0 seen depMap acc i p m h; simp [runAll] at h
  | cons c rest ih =>
    intro i0 seen depMap acc i p m h
    cases hr : readFile c.sourceFile with
    | none =>
      rw [runAll_read_none wd readFile getDeps linters rules c rest i0 seen depMap acc hr] at h ⊢
      simp at h
    | some text =>
      cases hb : buildDeps getDeps i0 wd c.artifacts seen depMap with
      | mk ev1 seen' depMap' berr =>
        have hbe : ∀ e ∈ ev1, e.isExtract = true ∧ e.idx = i0 := by
          intro e' he'
          have := buildDeps_events getDeps i0 wd c.artifacts seen depMap e'
          rw [hb] at this
          exact this he'
        cases berr with
        | some e2 =>
          rw [runAll_bd_err wd readFile getDeps linters rules c rest i0 seen depMap acc
            text ev1 seen' depMap' e2 hr hb] at h ⊢
          simp at h
          obtain ⟨p', m', hpm⟩ := by
            have := buildDeps_err getDeps i0 wd c.artifacts seen depMap e2
            rw [hb] at this
            exact this rfl
          subst hpm
          injection h.symm with h1 h2 h3
          subst h1
          refine ⟨Nat.le_refl _, ?_⟩
          intro e he hlint
          rw [event_not_lint_of_extract e (hbe e he).1] at hlint
          exact absurd hlint (by simp)
        | none =>
          cases hl : runLinters i0 ⟨⟨c.sourceFile, trimPre wd c.sourceFile, text⟩, depMap', c⟩
              rules linters 0 with
          | mk ev2 res lerr =>
            have hle : ∀ e ∈ ev2, ∃ j', e = .lint i0 j' := by
              intro e' he'
              have := runLinters_events i0
                ⟨⟨c.sourceFile, trimPre wd c.sourceFile, text⟩, depMap', c⟩ rules linters 0 e'
              rw [hl] at this
              obtain ⟨j', hj', _⟩ := this he'
              exact ⟨j', hj'⟩
            cases lerr with
            | some e2 =>
              rw [runAll_rl_err wd readFile getDeps linters rules c rest i0 seen depMap acc
                text ev1 seen' depMap' ev2 res e2 hr hb hl] at h ⊢
              simp at h
              obtain ⟨jf, m', hm, _, _⟩ := by
                have := runLinters_err i0
                  ⟨⟨c.sourceFile, trimPre wd c.sourceFile, text⟩, depMap', c⟩ rules linters 0 e2
                rw [hl] at this
                exact this rfl
              subst hm
              simp at h
            | none =>
              rw [runAll_step_ok wd readFile getDeps linters rules c rest i0 seen depMap acc
                text ev1 seen' depMap' ev2 res hr hb hl] at h ⊢
              obtain ⟨hge, hrest⟩ := ih (i0 + 1) seen' depMap' (acc ++ res) i p m h
              refine ⟨by omega, ?_⟩
              intro e he hlint
              simp at he
              rcases he with he | he | he
              · rw [event_not_lint_of_extract e (hbe e he).1] at hlint
                exact absurd hlint (by simp)
              · obtain ⟨j', hj'⟩ := hle e he
                subst hj'
                have : (Event.lint i0 j').idx = i0 := rfl
                omega
              · exact hrest e he hlint

theorem runAll_lintErr_stops (wd : String) (readFile : String → Option String)
    (getDeps : String → Except String (List String)) (linters : List Linter)
    (rules : List Rule) :
    ∀ (cfgs : List SkaffoldConfig) (i0 : Nat) (seen : List String)
      (depMap : List (String × List String)) (acc : List Result) (i j : Nat) (m : String),
      (runAll wd readFile getDeps linters rules cfgs i0 seen depMap acc).result
          = .error (.lintErr i j m) →
        i0 ≤ i ∧
        (∀ e ∈ (runAll wd readFile getDeps linters rules cfgs i0 seen depMap acc).trace,
          e.idx ≤ i) ∧
        (∀ e ∈ (runAll wd readFile getDeps linters rules cfgs i0 seen depMap acc).trace,
          ∀ jj, e = .lint i jj → jj ≤ j) := by
  intro cfgs
  induction cfgs with
  | nil => intro i0 seen depMap acc i j m h; simp [runAll] at h
  | cons c rest ih =>
    intro i0 seen depMap acc i j m h
    cases hr : readFile c.sourceFile with
    | none =>
      rw [runAll_read_none wd readFile getDeps linters rules c rest i0 seen depMap acc hr] at h ⊢
      simp at h
    | some text =>
      cases hb : buildDeps getDeps i0 wd c.artifacts seen depMap with
      | mk ev1 seen' depMap' berr =>
        have hbe : ∀ e ∈ ev1, e.isExtract = true ∧ e.idx = i0 := by
          intro e' he'
          have := buildDeps_events getDeps i0 wd c.artifacts seen depMap e'
          rw [hb] at this
          exact this he'
        cases berr with
        | some e2 =>
          rw [runAll_bd_err wd readFile getDeps linters rules c rest i0 seen depMap acc
            text ev1 seen' depMap' e2 hr hb] at h ⊢
          simp at h
          obtain ⟨p', m', hpm⟩ := by
            have := buildDeps_err getDeps i0 wd c.artifacts seen depMap e2
            rw [hb] at this
            exact this rfl
          subst hpm
          simp at h
        | none =>
          cases hl : runLinters i0 ⟨⟨c.sourceFile, trimPre wd c.sourceFile, text⟩, depMap', c⟩
              rules linters 0 with
          | mk ev2 res lerr =>
            cases lerr with
            | some e2 =>
              rw [runAll_rl_err wd readFile getDeps linters rules c rest i0 seen depMap acc
                text ev1 seen' depMap' ev2 res e2 hr hb hl] at h ⊢
              simp at h
              obtain ⟨jf, m', hm, _, hall⟩ := by
                have := runLinters_err i0
                  ⟨⟨c.sourceFile, trimPre wd c.sourceFile, text⟩, depMap', c⟩ rules linters 0 e2
                rw [hl] at this
                exact this rfl
              subst hm
              injection h.symm with h1 h2 h3
              subst h1
              subst h2
              refine ⟨Nat.le_refl _, ?_, ?_⟩
              · intro e he
                rcases List.mem_append.mp he with he | he
                · exact (hbe e he).2.le
                · have := runLinters_events i
                    ⟨⟨c.sourceFile, trimPre wd c.sourceFile, text⟩, depMap', c⟩ rules linters 0 e
                  rw [hl] at this
                  obtain ⟨j', hj', _⟩ := this he
                  subst hj'
                  exact Nat.le_refl _
              · intro e he jj hjj
                rcases List.mem_append.mp he with he | he
                · subst hjj
                  have := (hbe _ he).1
                  simp [Event.isExtract] at this
                · have := hall e (by exact he) jj hjj
                  exact this
            | none =>
              rw [runAll_step_ok wd readFile getDeps linters rules c rest i0 seen depMap acc
                text ev1 seen' depMap' ev2 res hr hb hl] at h ⊢
              obtain ⟨hge, htr, hjj⟩ := ih (i0 + 1) seen' depMap' (acc ++ res) i j m h
              have hle : ∀ e ∈ ev2, ∃ j', e = .lint i0 j' := by
                intro e' he'
                have := runLinters_events i0
                  ⟨⟨c.sourceFile, trimPre wd c.sourceFile, text⟩, depMap', c⟩ rules linters 0 e'
                rw [hl] at this
                obtain ⟨j', hj', _⟩ := this he'
                exact ⟨j', hj'⟩
              refine ⟨by omega, ?_, ?_⟩
              · intro e he
                simp at he
                rcases he with he | he | he
                · have := (hbe e he).2
                  omega
                · obtain ⟨j', hj'⟩ := hle e he
                  subst hj'
                  have : (Event.lint i0 j').idx = i0 := rfl
                  omega
                · exact htr e he
              · intro e he jj hjjq
                simp at he
                rcases he with he | he | he
                · subst hjjq
                  have := (hbe _ he).1
                  simp [Event.isExtract] at this
                · obtain ⟨j', hj'⟩ := hle e he
                  rw [hjjq] at hj'
                  injection hj' with h1 h2
                  omega
                · exact hjj e he jj hjjq

/-- Claim C4 (amended): within each configuration unit the dependency
side-table entries are built before that unit's rule evaluation — the trace
never shows an extraction for a unit after a lint event of the same unit —
and a dependency-extraction failure aborts the run before any rule of the
failing unit or of any later unit is evaluated.  The side-table is NOT
fully built for the whole configuration set before rule evaluation begins:
rules of units preceding the failing one have already been evaluated (see
the counterexample). -/
theorem C4_amended_dependency_build_order (wd : String) (readFile : String → Option String)
    (getDeps : String → Except String (List String)) (linters : List Linter)
    (rules : List Rule) (cfgs : List SkaffoldConfig) :
    (GetSkaffoldYamlsLintResults wd readFile getDeps linters rules cfgs).trace.Pairwise
      (fun e e' => e.isLint = true → e'.isExtract = true → e.idx ≠ e'.idx) ∧
    (∀ i p m,
      (GetSkaffoldYamlsLintResults wd readFile getDeps linters rules cfgs).result
          = .error (.extractErr i p m) →
      ∀ e ∈ (GetSkaffoldYamlsLintResults wd readFile getDeps linters rules cfgs).trace,
        e.isLint = true → e.idx < i) :=
  ⟨runAll_no_extract_after_lint wd readFile getDeps linters rules cfgs 0 [] [] [],
    fun i p m h =>
      (runAll_extractErr_no_lint wd readFile getDeps linters rules cfgs 0 [] [] [] i p m h).2⟩

/-- First configuration unit of the C4/C5 scenarios: no Docker artifacts. -/
def cfgA : SkaffoldConfig := ⟨"a.yaml", []⟩

/-- Second configuration unit of the C4/C5 scenarios: one Docker
artifact. -/
def cfgB : SkaffoldConfig := ⟨"b.yaml", [⟨"ws", some ⟨"Dockerfile"⟩⟩]⟩

/-- A linter that always succeeds with one result. -/
def okLinter : Linter := fun _ _ => .ok [⟨"r"⟩]

/-- Claim C4 counterexample: with two configuration units where only the
second has a Docker artifact and dependency extraction always fails, the
trace is `[lint 0 0, extract 1 "w/ws/Dockerfile"]` and the run aborts with
the extraction error: a rule was evaluated (for the first unit) BEFORE the
failing extraction, so the side-table is not fully built for the whole
configuration set before rule evaluation begins, and the extraction failure
does not abort before any rule is evaluated. -/
theorem C4_counterexample :
    GetSkaffoldYamlsLintResults "w" (fun _ => some "text") (fun _ => .error "boom")
        [okLinter] [] [cfgA, cfgB]
      = ⟨[Event.lint 0 0, Event.extract 1 "w/ws/Dockerfile"], [],
          .error (.extractErr 1 "w/ws/Dockerfile" "boom")⟩ := by
  decide

/-- Witness for claim C4 (amended) at the concrete two-unit failing run. -/
theorem C4_amended_witness :
    ((GetSkaffoldYamlsLintResults "w" (fun _ => some "text") (fun _ => .error "boom")
        [okLinter] [] [cfgA, cfgB]).trace.Pairwise
      (fun e e' => e.isLint = true → e'.isExtract = true → e.idx ≠ e'.idx)) ∧
    (∀ e ∈ (GetSkaffoldYamlsLintResults "w" (fun _ => some "text") (fun _ => .error "boom")
        [okLinter] [] [cfgA, cfgB]).trace, e.isLint = true → e.idx < 1) := by
  have h := C4_amended_dependency_build_order "w" (fun _ => some "text")
    (fun _ => .error "boom") [okLinter] [] [cfgA, cfgB]
  exact ⟨h.1, h.2 1 "w/ws/Dockerfile" "boom" (by decide)⟩

/-- Claim C5 (amended): a linter (rule) failure is NOT isolated to that
rule: the orchestrator returns the error immediately, no recommendations
are returned, and the trace contains no event of any later configuration
unit and no later linter invocation of the failing unit. -/
theorem C5_amended_rule_error_aborts (wd : String) (readFile : String → Option String)
    (getDeps : String → Except String (List String)) (linters : List Linter)
    (rules : List Rule) (cfgs : List SkaffoldConfig) :
    ∀ i j m,
      (GetSkaffoldYamlsLintResults wd readFile getDeps linters rules cfgs).result
          = .error (.lintErr i j m) →
        (∀ e ∈ (GetSkaffoldYamlsLintResults wd readFile getDeps linters rules cfgs).trace,
          e.idx ≤ i) ∧
        (∀ e ∈ (GetSkaffoldYamlsLintResults wd readFile getDeps linters rules cfgs).trace,
          ∀ jj, e = .lint i jj → jj ≤ j) :=
  fun i j m h =>
    ⟨(runAll_lintErr_stops wd readFile getDeps linters rules cfgs 0 [] [] [] i j m h).2.1,
      (runAll_lintErr_stops wd readFile getDeps linters rules cfgs 0 [] [] [] i j m h).2.2⟩

/-- A linter that always fails. -/
def badLinter : Linter := fun _ _ => .error "boom"

/-- Claim C5 counterexample: with two linters — the first always failing,
the second always producing a recommendation — and two configuration units,
the run aborts at the very first linter invocation: the trace is
`[lint 0 0]` (the second linter and the second unit are never evaluated) and
the result is the bare error, so no other rule's or unit's recommendations
are produced. -/
theorem C5_counterexample :
    GetSkaffoldYamlsLintResults "w" (fun _ => some "text") (fun _ => .ok [])
        [badLinter, okLinter] [] [cfgA, cfgB]
      = ⟨[Event.lint 0 0], [], .error (.lintErr 0 0 "boom")⟩ := by
  decide

/-- Witness for claim C5 (amended) at the concrete failing-linter run. -/
theorem C5_amended_witness :
    (∀ e ∈ (GetSkaffoldYamlsLintResults "w" (fun _ => some "text") (fun _ => .ok [])
        [badLinter, okLinter] [] [cfgA, cfgB]).trace, e.idx ≤ 0) ∧
    (∀ e ∈ (GetSkaffoldYamlsLintResults "w" (fun _ => some "text") (fun _ => .ok [])
        [badLinter, okLinter] [] [cfgA, cfgB]).trace, ∀ jj, e = .lint 0 jj → jj ≤ 0) := by
  exact C5_amended_rule_error_aborts "w" (fun _ => some "text") (fun _ => .ok [])
    [badLinter, okLinter] [] [cfgA, cfgB] 0 0 "boom" (by decide)

/-- The joined Dockerfile path of a build artifact, when it is a Docker
artifact. -/
def artFp (wd : String) (a : Artifact) : Option String :=
  a.dockerArtifact.map (fun da => pathJoin (pathJoin wd a.workspace) da.dockerfilePath)

/-- The joined Dockerfile paths of a list of build artifacts, in order. -/
def artFps (wd : String) (arts : List Artifact) : List String := arts.filterMap (artFp wd)

/-- All Docker-artifact Dockerfile paths of a configuration set, in
encounter order (with duplicates). -/
def dockerFps (wd : String) (cfgs : List SkaffoldConfig) : List String :=
  cfgs.flatMap (fun c => artFps wd c.artifacts)

/-- Adding a path to a seen set (no-op when already present). -/
def insertSeen (s : List String) (fp : String) : List String :=
  if fp ∈ s then s else fp :: s

/-- First-occurrence deduplication relative to an already-seen set. -/
def dedupAcc (seen : List String) : List String → List String
  | [] => []
  | x :: xs => if x ∈ seen then dedupAcc seen xs else x :: dedupAcc (x :: seen) xs

/-- The side-table built directly from a path list by calling the extractor
once per entry, failing on the first extraction error. -/
def simpleBuild (getDeps : String → Except String (List String)) :
    List String → Except String (List (String × List String))
  | [] => .ok []
  | fp :: rest =>
    match getDeps fp with
    | .error e => .error e
    | .ok deps =>
      match simpleBuild getDeps rest with
      | .error e => .error e
      | .ok t => .ok ((fp, deps) :: t)

theorem dedupAcc_cons_mem {x : String} {seen xs : List String} (h : x ∈ seen) :
    dedupAcc seen (x :: xs) = dedupAcc seen xs := by
  simp [dedupAcc, h]

theorem dedupAcc_cons_not_mem {x : String} {seen xs : List String} (h : x ∉ seen) :
    dedupAcc seen (x :: xs) = x :: dedupAcc (x :: seen) xs := by
  simp [dedupAcc, h]

theorem dedupAcc_append :
    ∀ (A : List String) (seen B : List String),
      dedupAcc seen (A ++ B) = dedupAcc seen A ++ dedupAcc (List.foldl insertSeen seen A) B := by
  intro A
  induction A with
  | nil => intro seen B; simp [dedupAcc]
  | cons x A ih =>
    intro seen B
    by_cases hx : x ∈ seen
    · rw [List.cons_append, dedupAcc_cons_mem hx, dedupAcc_cons_mem hx, ih seen B]
      simp [List.foldl_cons, insertSeen, hx]
    · rw [List.cons_append, dedupAcc_cons_not_mem hx, dedupAcc_cons_not_mem hx, ih (x :: seen) B]
      simp [List.foldl_cons, insertSeen, hx]

theorem simpleBuild_append_ok (getDeps : String → Except String (List String)) :
    ∀ (A B : List String) (tA tB : List (String × List String)),
      simpleBuild getDeps A = .ok tA → simpleBuild getDeps B = .ok tB →
        simpleBuild getDeps (A ++ B) = .ok (tA ++ tB) := by
  intro A
  induction A with
  | nil =>
    intro B tA tB hA hB
    unfold simpleBuild at hA
    injection hA with hA
    subst hA
    simpa using hB
  | cons fp A ih =>
    intro B tA tB hA hB
    unfold simpleBuild at hA
    cases hg : getDeps fp with
    | error e => rw [hg] at hA; exact Except.noConfusion hA
    | ok deps =>
      rw [hg] at hA
      cases hs : simpleBuild getDeps A with
      | error e => rw [hs] at hA; exact Except.noConfusion hA
      | ok t' =>
        rw [hs] at hA
        injection hA with hA
        subst hA
        rw [List.cons_append]
        unfold simpleBuild
        rw [hg, ih B t' tB hs hB]
        simp

theorem buildDeps_cons_nodocker (getDeps : String → Except String (List String))
    (cfgIdx : Nat) (wd : String) (a : Artifact) (rest : List Artifact) (seen : List String)
    (depMap : List (String × List String)) (h : a.dockerArtifact = none) :
    buildDeps getDeps cfgIdx wd (a :: rest) seen depMap
      = buildDeps getDeps cfgIdx wd rest seen depMap := by
  simp [buildDeps, h]

theorem buildDeps_cons_seen (getDeps : String → Except String (List String))
    (cfgIdx : Nat) (wd : String) (a : Artifact) (da : DockerArtifact) (rest : List Artifact)
    (seen : List String) (depMap : List (String × List String))
    (h : a.dockerArtifact = some da)
    (h2 : pathJoin (pathJoin wd a.workspace) da.dockerfilePath ∈ seen) :
    buildDeps getDeps cfgIdx wd (a :: rest) seen depMap
      = buildDeps getDeps cfgIdx wd rest seen depMap := by
  simp [buildDeps, h, h2]

theorem buildDeps_cons_fail (getDeps : String → Except String (List String))
    (cfgIdx : Nat) (wd : String) (a : Artifact) (da : DockerArtifact) (rest : List Artifact)
    (seen : List String) (depMap : List (String × List String)) (e : String)
    (h : a.dockerArtifact = some da)
    (h2 : pathJoin (pathJoin wd a.workspace) da.dockerfilePath ∉ seen)
    (h3 : getDeps (pathJoin (pathJoin wd a.workspace) da.dockerfilePath) = .error e) :
    buildDeps getDeps cfgIdx wd (a :: rest) seen depMap
      = ⟨[Event.extract cfgIdx (pathJoin (pathJoin wd a.workspace) da.dockerfilePath)],
          pathJoin (pathJoin wd a.workspace) da.dockerfilePath :: seen, depMap,
          some (.extractErr cfgIdx (pathJoin (pathJoin wd a.workspace) da.dockerfilePath) e)⟩ := by
  simp [buildDeps, h, h2, h3]

theorem buildDeps_cons_ok (getDeps : String → Except String (List String))
    (cfgIdx : Nat) (wd : String) (a : Artifact) (da : DockerArtifact) (rest : List Artifact)
    (seen : List String) (depMap : List (String × List String)) (deps : List String)
    (h : a.dockerArtifact = some da)
    (h2 : pathJoin (pathJoin wd a.workspace) da.dockerfilePath ∉ seen)
    (h3 : getDeps (pathJoin (pathJoin wd a.workspace) da.dockerfilePath) = .ok deps) :
    buildDeps getDeps cfgIdx wd (a :: rest) seen depMap
      = ⟨Event.extract cfgIdx (pathJoin (pathJoin wd a.workspace) da.dockerfilePath)
            :: (buildDeps getDeps cfgIdx wd rest
              (pathJoin (pathJoin wd a.workspace) da.dockerfilePath :: seen)
              (depMap ++ [(pathJoin (pathJoin wd a.workspace) da.dockerfilePath, deps)])).evs,
          (buildDeps getDeps cfgIdx wd rest
            (pathJoin (pathJoin wd a.workspace) da.dockerfilePath :: seen)
            (depMap ++ [(pathJoin (pathJoin wd a.workspace) da.dockerfilePath, deps)])).seen,
          (buildDeps getDeps cfgIdx wd rest
            (pathJoin (pathJoin wd a.workspace) da.dockerfilePath :: seen)
            (depMap ++ [(pathJoin (pathJoin wd a.workspace) da.dockerfilePath, deps)])).depMap,
          (buildDeps getDeps cfgIdx wd rest
            (pathJoin (pathJoin wd a.workspace) da.dockerfilePath :: seen)
            (depMap ++ [(pathJoin (pathJoin wd a.workspace) da.dockerfilePath, deps)])).err⟩ := by
  simp [buildDeps, h, h2, h3]

theorem buildDeps_nodup (getDeps : String → Except String (List String)) (cfgIdx : Nat)
    (wd : String) :
    ∀ (arts : List Artifact) (seen : List String) (depMap : List (String × List String)),
      (extractPaths (buildDeps getDeps cfgIdx wd arts seen depMap).evs).Nodup ∧
      (∀ p ∈ extractPaths (buildDeps getDeps cfgIdx wd arts seen depMap).evs, p ∉ seen) ∧
      (∀ p, p ∈ seen → p ∈ (buildDeps getDeps cfgIdx wd arts seen depMap).seen) ∧
      (∀ p ∈ extractPaths (buildDeps getDeps cfgIdx wd arts seen depMap).evs,
        p ∈ (buildDeps getDeps cfgIdx wd arts seen depMap).seen) := by
  intro arts
  induction arts with
  | nil =>
    intro seen depMap
    refine ⟨List.nodup_nil, ?_, ?_, ?_⟩ <;> simp [buildDeps, extractPaths]
  | cons a rest ih =>
    intro seen depMap
    cases hda : a.dockerArtifact with
    | none =>
      rw [buildDeps_cons_nodocker getDeps cfgIdx wd a rest seen depMap hda]
      exact ih seen depMap
    | some da =>
      by_cases hs : pathJoin (pathJoin wd a.workspace) da.dockerfilePath ∈ seen
      · rw [buildDeps_cons_seen getDeps cfgIdx wd a da rest seen depMap hda hs]
        exact ih seen depMap
      · cases hg : getDeps (pathJoin (pathJoin wd a.workspace) da.dockerfilePath) with
        | error er =>
          rw [buildDeps_cons_fail getDeps cfgIdx wd a da rest seen depMap er hda hs hg]
          refine ⟨by simp [extractPaths], ?_, ?_, ?_⟩
          · intro p hp
            simp [extractPaths] at hp
            subst hp
            exact hs
          · intro p hp
            exact List.mem_cons_of_mem _ hp
          · intro p hp
            simp [extractPaths] at hp
            subst hp
            exact List.mem_cons_self _ _
        | ok deps =>
          rw [buildDeps_cons_ok getDeps cfgIdx wd a da rest seen depMap deps hda hs hg]
          obtain ⟨ihN, ihNotSeen, ihSub, ihIn⟩ := ih
            (pathJoin (pathJoin wd a.workspace) da.dockerfilePath :: seen)
            (depMap ++ [(pathJoin (pathJoin wd a.workspace) da.dockerfilePath, deps)])
          have hpaths : extractPaths
              (Event.extract cfgIdx (pathJoin (pathJoin wd a.workspace) da.dockerfilePath)
                :: (buildDeps getDeps cfgIdx wd rest
                  (pathJoin (pathJoin wd a.workspace) da.dockerfilePath :: seen)
                  (depMap ++ [(pathJoin (pathJoin wd a.workspace) da.dockerfilePath, deps)])).evs)
              = pathJoin (pathJoin wd a.workspace) da.dockerfilePath
                :: extractPaths (buildDeps getDeps cfgIdx wd rest
                  (pathJoin (pathJoin wd a.workspace) da.dockerfilePath :: seen)
                  (depMap ++ [(pathJoin (pathJoin wd a.workspace) da.dockerfilePath, deps)])).evs := by
            simp [extractPaths]
          refine ⟨?_, ?_, ?_, ?_⟩
          · rw [hpaths]
            refine List.Nodup.cons ?_ ihN
            intro hmem
            exact (ihNotSeen _ hmem) (List.mem_cons_self _ _)
          · rw [hpaths]
            intro p hp
            rcases List.mem_cons.mp hp with rfl | hp
            · exact hs
            · intro hpseen
              exact (ihNotSeen p hp) (List.mem_cons_of_mem _ hpseen)
          · intro p hp
            exact ihSub p (List.mem_cons_of_mem _ hp)
          · rw [hpaths]
            intro p hp
            rcases List.mem_cons.mp hp with rfl | hp
            · exact ihSub _ (List.mem_cons_self _ _)
            · exact ihIn p hp

theorem buildDeps_ok_spec (getDeps : String → Except String (List String)) (cfgIdx : Nat)
    (wd : String) :
    ∀ (arts : List Artifact) (seen : List String) (depMap : List (String × List String)),
      (buildDeps getDeps cfgIdx wd arts seen depMap).err = none →
        extractPaths (buildDeps getDeps cfgIdx wd arts seen depMap).evs
            = dedupAcc seen (artFps wd arts) ∧
        (buildDeps getDeps cfgIdx wd arts seen depMap).seen
            = List.foldl insertSeen seen (artFps wd arts) ∧
        ∃ t, (buildDeps getDeps cfgIdx wd arts seen depMap).depMap = depMap ++ t ∧
          simpleBuild getDeps (extractPaths (buildDeps getDeps cfgIdx wd arts seen depMap).evs)
            = .ok t := by
  intro arts
  induction arts with
  | nil =>
    intro seen depMap _
    exact ⟨by simp [buildDeps, extractPaths, artFps, dedupAcc],
      by simp [buildDeps, artFps],
      [], by simp [buildDeps], by simp [buildDeps, extractPaths, simpleBuild]⟩
  | cons a rest ih =>
    intro seen depMap herr
    cases hda : a.dockerArtifact with
    | none =>
      rw [buildDeps_cons_nodocker getDeps cfgIdx wd a rest seen depMap hda] at herr ⊢
      have harts : artFps wd (a :: rest) = artFps wd rest := by
        simp [artFps, List.filterMap_cons, artFp, hda]
      rw [harts]
      exact ih seen depMap herr
    | some da =>
      have hfp : artFps wd (a :: rest)
          = pathJoin (pathJoin wd a.workspace) da.dockerfilePath :: artFps wd rest := by
        simp [artFps, List.filterMap_cons, artFp, hda]
      by_cases hs : pathJoin (pathJoin wd a.workspace) da.dockerfilePath ∈ seen
      · rw [buildDeps_cons_seen getDeps cfgIdx wd a da rest seen depMap hda hs] at herr ⊢
        obtain ⟨h1, h2, t, h3, h4⟩ := ih seen depMap herr
        rw [hfp]
        refine ⟨by rw [dedupAcc_cons_mem hs]; exact h1, ?_, t, h3, h4⟩
        rw [h2]
        simp [List.foldl_cons, insertSeen, hs]
      · cases hg : getDeps (pathJoin (pathJoin wd a.workspace) da.dockerfilePath) with
        | error er =>
          rw [buildDeps_cons_fail getDeps cfgIdx wd a da rest seen depMap er hda hs hg] at herr
          simp at herr
        | ok deps =>
          rw [buildDeps_cons_ok getDeps cfgIdx wd a da rest seen depMap deps hda hs hg]
            at herr ⊢
          obtain ⟨h1, h2, t, h3, h4⟩ := ih
            (pathJoin (pathJoin wd a.workspace) da.dockerfilePath :: seen)
            (depMap ++ [(pathJoin (pathJoin wd a.workspace) da.dockerfilePath, deps)])
            (by exact herr)
          have hpaths : extractPaths
              (Event.extract cfgIdx (pathJoin (pathJoin wd a.workspace) da.dockerfilePath)
                :: (buildDeps getDeps cfgIdx wd rest
                  (pathJoin (pathJoin wd a.workspace) da.dockerfilePath :: seen)
                  (depMap ++ [(pathJoin (pathJoin wd a.workspace) da.dockerfilePath, deps)])).evs)
              = pathJoin (pathJoin wd a.workspace) da.dockerfilePath
                :: extractPaths (buildDeps getDeps cfgIdx wd rest
                  (pathJoin (pathJoin wd a.workspace) da.dockerfilePath :: seen)
                  (depMap ++ [(pathJoin (pathJoin wd a.workspace) da.dockerfilePath, deps)])).evs := by
            simp [extractPaths]
          refine ⟨?_, ?_, (pathJoin (pathJoin wd a.workspace) da.dockerfilePath, deps) :: t,
            ?_, ?_⟩
          · show extractPaths (Event.extract cfgIdx _ :: _) = _
            rw [hpaths, hfp, dedupAcc_cons_not_mem hs, h1]
          · show (buildDeps getDeps cfgIdx wd rest _ _).seen = _
            rw [h2, hfp]
            simp [List.foldl_cons, insertSeen, hs]
          · show (buildDeps getDeps cfgIdx wd rest _ _).depMap = _
            rw [h3]
            simp
          · show simpleBuild getDeps (extractPaths (Event.extract cfgIdx _ :: _)) = _
            rw [hpaths]
            unfold simpleBuild
            rw [hg, h4]

theorem runAll_c6 (wd : String) (readFile : String → Option String)
    (getDeps : String → Except String (List String)) (linters : List Linter)
    (rules : List Rule) :
    ∀ (cfgs : List SkaffoldConfig) (i0 : Nat) (seen : List String)
      (depMap : List (String × List String)) (acc : List Result),
      (extractPaths
        (runAll wd readFile getDeps linters rules cfgs i0 seen depMap acc).trace).Nodup ∧
      (∀ p ∈ extractPaths (runAll wd readFile getDeps linters rules cfgs i0 seen depMap acc).trace,
        p ∉ seen) ∧
      (∀ res, (runAll wd readFile getDeps linters rules cfgs i0 seen depMap acc).result
            = .ok res →
        extractPaths (runAll wd readFile getDeps linters rules cfgs i0 seen depMap acc).trace
            = dedupAcc seen (dockerFps wd cfgs) ∧
        ∃ t, (runAll wd readFile getDeps linters rules cfgs i0 seen depMap acc).depMap
              = depMap ++ t ∧
          simpleBuild getDeps
              (extractPaths
                (runAll wd readFile getDeps linters rules cfgs i0 seen depMap acc).trace)
            = .ok t) := by
  intro cfgs
  induction cfgs with
  | nil =>
    intro i0 seen depMap acc
    refine ⟨by simp [runAll, extractPaths], by simp [runAll, extractPaths], ?_⟩
    intro res hres
    exact ⟨by simp [runAll, extractPaths, dockerFps, dedupAcc],
      [], by simp [runAll], by simp [runAll, extractPaths, simpleBuild]⟩
  | cons c rest ih =>
    intro i0 seen depMap acc
    cases hr : readFile c.sourceFile with
    | none =>
      rw [runAll_read_none wd readFile getDeps linters rules c rest i0 seen depMap acc hr]
      refine ⟨by simp [extractPaths], by simp [extractPaths], ?_⟩
      intro res hres
      simp at hres
    | some text =>
      cases hb : buildDeps getDeps i0 wd c.artifacts seen depMap with
      | mk ev1 seen' depMap' berr =>
        have hbd := buildDeps_nodup getDeps i0 wd c.artifacts seen depMap
        rw [hb] at hbd
        obtain ⟨bN, bNot, bSub, bIn⟩ := hbd
        cases berr with
        | some e2 =>
          rw [runAll_bd_err wd readFile getDeps linters rules c rest i0 seen depMap acc
            text ev1 seen' depMap' e2 hr hb]
          refine ⟨bN, bNot, ?_⟩
          intro res hres
          simp at hres
        | none =>
          cases hl : runLinters i0 ⟨⟨c.sourceFile, trimPre wd c.sourceFile, text⟩, depMap', c⟩
              rules linters 0 with
          | mk ev2 res0 lerr =>
            have hnoext : extractPaths ev2 = [] := by
              have h0 := runLinters_no_extract i0
                ⟨⟨c.sourceFile, trimPre wd c.sourceFile, text⟩, depMap', c⟩ rules linters 0
              rw [hl] at h0
              exact h0
            cases lerr with
            | some e2 =>
              rw [runAll_rl_err wd readFile getDeps linters rules c rest i0 seen depMap acc
                text ev1 seen' depMap' ev2 res0 e2 hr hb hl]
              have hp : extractPaths (ev1 ++ ev2) = extractPaths ev1 := by
                simp only [extractPaths, List.filterMap_append] at hnoext ⊢
                rw [hnoext, List.append_nil]
              refine ⟨by rw [hp]; exact bN, by rw [hp]; exact bNot, ?_⟩
              intro res hres
              simp at hres
            | none =>
              rw [runAll_step_ok wd readFile getDeps linters rules c rest i0 seen depMap acc
                text ev1 seen' depMap' ev2 res0 hr hb hl]
              obtain ⟨iN, iNot, iOk⟩ := ih (i0 + 1) seen' depMap' (acc ++ res0)
              have hsplit : extractPaths (ev1 ++ ev2
                    ++ (runAll wd readFile getDeps linters rules rest (i0 + 1) seen' depMap'
                      (acc ++ res0)).trace)
                  = extractPaths ev1
                    ++ extractPaths (runAll wd readFile getDeps linters rules rest (i0 + 1)
                      seen' depMap' (acc ++ res0)).trace := by
                simp only [extractPaths, List.filterMap_append] at hnoext ⊢
                rw [hnoext]
                simp
              rw [hsplit]
              refine ⟨?_, ?_, ?_⟩
              · refine List.nodup_append.mpr ⟨bN, iN, ?_⟩
                intro p hp1 hp2
                exact (iNot p hp2) (bIn p hp1)
              · intro p hp
                rcases List.mem_append.mp hp with hp | hp
                · exact bNot p hp
                · intro hpseen
                  exact (iNot p hp) (bSub p hpseen)
              · intro res hres
                obtain ⟨ieq, t2, idm, isb⟩ := iOk res hres
                have hb0 := buildDeps_ok_spec getDeps i0 wd c.artifacts seen depMap
                  (by rw [hb])
                rw [hb] at hb0
                obtain ⟨h1, h2, t1, h3, h4⟩ := hb0
                have h1' : extractPaths ev1 = dedupAcc seen (artFps wd c.artifacts) := h1
                have h2' : seen' = List.foldl insertSeen seen (artFps wd c.artifacts) := h2
                have h3' : depMap' = depMap ++ t1 := h3
                have h4' : simpleBuild getDeps (extractPaths ev1) = .ok t1 := h4
                have hdf : dockerFps wd (c :: rest)
                    = artFps wd c.artifacts ++ dockerFps wd rest := by
                  simp [dockerFps]
                constructor
                · rw [hdf, dedupAcc_append, h1', ieq, h2']
                · refine ⟨t1 ++ t2, ?_, ?_⟩
                  · rw [idm, h3', List.append_assoc]
                  · exact simpleBuild_append_ok getDeps _ _ t1 t2 h4' isb

/-- Claim C6: dependency extraction is invoked at most once per distinct
Dockerfile path in every run (the extraction-event paths are duplicate
free), and on a successful run the extracted paths are exactly the
first-occurrence deduplication of all the run's Docker-artifact paths —
so extraction runs exactly once per distinct path, a re-encountered path
is a no-op — and the final side-table equals the one built directly from
that deduplicated path list. -/
theorem C6_extraction_dedup (wd : String) (readFile : String → Option String)
    (getDeps : String → Except String (List String)) (linters : List Linter)
    (rules : List Rule) (cfgs : List SkaffoldConfig) :
    (extractPaths
      (GetSkaffoldYamlsLintResults wd readFile getDeps linters rules cfgs).trace).Nodup ∧
    (∀ res, (GetSkaffoldYamlsLintResults wd readFile getDeps linters rules cfgs).result
          = .ok res →
      extractPaths (GetSkaffoldYamlsLintResults wd readFile getDeps linters rules cfgs).trace
          = dedupAcc [] (dockerFps wd cfgs) ∧
      simpleBuild getDeps
          (extractPaths
            (GetSkaffoldYamlsLintResults wd readFile getDeps linters rules cfgs).trace)
        = .ok (GetSkaffoldYamlsLintResults wd readFile getDeps linters rules cfgs).depMap) := by
  have h := runAll_c6 wd readFile getDeps linters rules cfgs 0 [] [] []
  refine ⟨h.1, fun res hres => ?_⟩
  obtain ⟨hdedup, t, hdm, hsb⟩ := h.2.2 res hres
  refine ⟨hdedup, ?_⟩
  have ht : (GetSkaffoldYamlsLintResults wd readFile getDeps linters rules cfgs).depMap = t := by
    show (runAll wd readFile getDeps linters rules cfgs 0 [] [] []).depMap = t
    rw [hdm]
    simp
  rw [ht]
  exact hsb

/-- Witness for claim C6: a successful run over two configuration units that
reference the same Dockerfile path extracts it exactly once, and the
side-table equals the directly-built one. -/
theorem C6_extraction_dedup_witness :
    extractPaths (GetSkaffoldYamlsLintResults "w" (fun _ => some "t")
        (fun _ => .ok ["w/ws/dep.py"]) [okLinter] [] [cfgB, cfgB]).trace
      = dedupAcc [] (dockerFps "w" [cfgB, cfgB]) ∧
    simpleBuild (fun _ => .ok ["w/ws/dep.py"])
        (extractPaths (GetSkaffoldYamlsLintResults "w" (fun _ => some "t")
          (fun _ => .ok ["w/ws/dep.py"]) [okLinter] [] [cfgB, cfgB]).trace)
      = .ok (GetSkaffoldYamlsLintResults "w" (fun _ => some "t")
          (fun _ => .ok ["w/ws/dep.py"]) [okLinter] [] [cfgB, cfgB]).depMap := by
  exact (C6_extraction_dedup "w" (fun _ => some "t") (fun _ => .ok ["w/ws/dep.py"])
    [okLinter] [] [cfgB, cfgB]).2 [⟨"r"⟩, ⟨"r"⟩] (by decide)

end Skaffold
